import Mathlib

/-!
# Verification of the sh-asset-server asset-rewriting core

Shallow embedding of the two near-duplicate Python sources
(`asset_server.py`, primary, and `levelserver.py`).  Python dictionaries
(insertion-ordered, unique keys) are embedded as association lists with
Python's assignment semantics; XML element trees as a mutual
element/forest inductive; the file system, the XML parser
(`xml.etree.ElementTree.fromstring`) and `gzip.decompress` as explicit
components of an environment record, so that every operation is a pure
function of that environment and of the template-cache state.
-/

namespace ShAssetServer

/-- Attribute mapping: Python `dict[str, str]` as an insertion-ordered
association list with unique keys. -/
abbrev Dict := List (String × String)

/-- Python `d[k] = v`: replace the value at the first occurrence of `k`,
keeping its position, or append `(k, v)` if `k` is absent. -/
def dictSet (d : Dict) (k v : String) : Dict :=
  match d with
  | [] => [(k, v)]
  | (k', v') :: rest => if k' = k then (k', v) :: rest else (k', v') :: dictSet rest k v

/-- Python `d.get(k)` / `d[k]` lookup: value at the first occurrence of `k`. -/
def dictLookup (d : Dict) (k : String) : Option String :=
  match d with
  | [] => none
  | (k', v') :: rest => if k' = k then some v' else dictLookup rest k

/-- Python `del d[k]`: remove the first occurrence of `k`. -/
def dictDel (d : Dict) (k : String) : Dict :=
  match d with
  | [] => []
  | (k', v') :: rest => if k' = k then rest else (k', v') :: dictDel rest k

/-- The keys of a mapping, in order. -/
def dictKeys (d : Dict) : List String := d.map Prod.fst

/-- Python `{**t, **a}`: start from `t` and assign every entry of `a` in
order.  Keys of `t` keep their positions (with `a`'s value on collision);
keys only in `a` are appended in `a`'s order. -/
def dictMerge (t a : Dict) : Dict :=
  a.foldl (fun d kv => dictSet d kv.1 kv.2) t

@[simp] theorem dictLookup_nil (k : String) : dictLookup [] k = none := rfl

theorem dictLookup_cons (k' v' : String) (rest : Dict) (k : String) :
    dictLookup ((k', v') :: rest) k = if k' = k then some v' else dictLookup rest k := rfl

theorem dictSet_cons (k' v' : String) (rest : Dict) (k v : String) :
    dictSet ((k', v') :: rest) k v =
      if k' = k then (k', v) :: rest else (k', v') :: dictSet rest k v := rfl

/-- Looking up the key just assigned yields the assigned value. -/
theorem dictLookup_dictSet_self (d : Dict) (k v : String) :
    dictLookup (dictSet d k v) k = some v := by
  induction d with
  | nil => simp [dictSet, dictLookup]
  | cons kv rest ih =>
      obtain ⟨k', v'⟩ := kv
      by_cases h : k' = k <;> simp [dictSet, dictLookup, h, ih]

/-- Assignment does not change lookups at other keys. -/
theorem dictLookup_dictSet_ne (d : Dict) (k v k₀ : String) (h : k₀ ≠ k) :
    dictLookup (dictSet d k v) k₀ = dictLookup d k₀ := by
  have hne : ¬k = k₀ := fun h' => h (Eq.symm h')
  induction d with
  | nil => simp [dictSet, dictLookup, hne]
  | cons kv rest ih =>
      obtain ⟨k', v'⟩ := kv
      by_cases hk : k' = k
      · subst hk
        simp [dictSet, dictLookup, hne]
      · by_cases hk₀ : k' = k₀
        · subst hk₀
          simp [dictSet, dictLookup, hk]
        · simp [dictSet, dictLookup, hk, hk₀, ih]

/-- Keys after an assignment: unchanged if the key was present, else the
key is appended. -/
theorem dictKeys_dictSet (d : Dict) (k v : String) :
    dictKeys (dictSet d k v) =
      if k ∈ dictKeys d then dictKeys d else dictKeys d ++ [k] := by
  induction d with
  | nil => simp [dictSet, dictKeys]
  | cons kv rest ih =>
      obtain ⟨k', v'⟩ := kv
      by_cases h : k' = k
      · subst h; simp [dictSet, dictKeys]
      · simp only [dictSet, if_neg h, dictKeys, List.map_cons] at ih ⊢
        by_cases hm : k ∈ List.map Prod.fst rest <;>
          simp [hm, Ne.symm h, ih]

@[simp] theorem dictKeys_nil : dictKeys [] = [] := rfl

@[simp] theorem dictKeys_cons (k' v' : String) (rest : Dict) :
    dictKeys ((k', v') :: rest) = k' :: dictKeys rest := rfl

/-- A key is in the lookup domain iff it is among the keys. -/
theorem dictLookup_isSome_iff (d : Dict) (k : String) :
    (dictLookup d k).isSome = true ↔ k ∈ dictKeys d := by
  induction d with
  | nil => simp [dictLookup]
  | cons kv rest ih =>
      obtain ⟨k', v'⟩ := kv
      by_cases h : k' = k
      · subst h; simp [dictLookup]
      · rw [dictKeys_cons]
        simp only [dictLookup, if_neg h, List.mem_cons, ih]
        constructor
        · exact Or.inr
        · rintro (h' | h')
          · exact absurd (Eq.symm h') h
          · exact h'

theorem dictLookup_eq_none_iff (d : Dict) (k : String) :
    dictLookup d k = none ↔ k ∉ dictKeys d := by
  rw [← dictLookup_isSome_iff]
  cases dictLookup d k <;> simp

/-- Assignment preserves distinctness of keys. -/
theorem nodup_dictKeys_dictSet (d : Dict) (k v : String)
    (h : (dictKeys d).Nodup) : (dictKeys (dictSet d k v)).Nodup := by
  rw [dictKeys_dictSet]
  by_cases hm : k ∈ dictKeys d <;> simp [hm, h, List.nodup_append]

/-- Re-assigning the value a key already has is the identity. -/
theorem dictSet_self (d : Dict) (k v : String) (h : dictLookup d k = some v) :
    dictSet d k v = d := by
  induction d with
  | nil => simp [dictLookup] at h
  | cons kv rest ih =>
      obtain ⟨k', v'⟩ := kv
      by_cases hk : k' = k
      · subst hk
        rw [dictLookup_cons, if_pos rfl] at h
        cases h
        simp [dictSet]
      · rw [dictLookup_cons, if_neg hk] at h
        simp [dictSet, hk, ih h]

theorem dictMerge_nil (t : Dict) : dictMerge t [] = t := rfl

theorem dictMerge_cons (t : Dict) (k v : String) (a : Dict) :
    dictMerge t ((k, v) :: a) = dictMerge (dictSet t k v) a := rfl

/-- Lookup in a concatenation: the left part wins. -/
theorem dictLookup_append (xs ys : Dict) (k : String) :
    dictLookup (xs ++ ys) k =
      match dictLookup xs k with
      | some v => some v
      | none => dictLookup ys k := by
  induction xs with
  | nil => simp [dictLookup]
  | cons kv rest ih =>
      obtain ⟨k', v'⟩ := kv
      by_cases h : k' = k <;> simp [dictLookup, h, ih]

/-- Lookup in a key-preserving re-mapping of a duplicate-free dict. -/
theorem dictLookup_map_of_mem (t : Dict) (F : String × String → String)
    (k w : String) (hnd : (dictKeys t).Nodup) (hmem : (k, w) ∈ t) :
    dictLookup (t.map (fun kv => (kv.1, F kv))) k = some (F (k, w)) := by
  induction t with
  | nil => cases hmem
  | cons kv rest ih =>
      obtain ⟨k', v'⟩ := kv
      rw [dictKeys_cons, List.nodup_cons] at hnd
      rcases List.mem_cons.mp hmem with h | h
      · cases h
        simp [dictLookup]
      · have hk : k' ≠ k := by
          intro h'
          apply hnd.1
          rw [h']
          exact (List.mem_map.mpr ⟨(k, w), h, rfl⟩ : k ∈ dictKeys rest)
        simp [dictLookup, hk, ih hnd.2 h]

/-- The keys of a key-preserving re-mapping. -/
theorem dictKeys_map (t : Dict) (F : String × String → String) :
    dictKeys (t.map (fun kv => (kv.1, F kv))) = dictKeys t := by
  simp [dictKeys, List.map_map, Function.comp_def]

/-- Explicit normal form of the Python merge `{**t, **a}`: the entries of
`t` in order, each overridden by `a` where `a` has the key, followed by
the entries of `a` whose keys are not in `t`. -/
def dictMergeExplicit (t a : Dict) : Dict :=
  t.map (fun kv => (kv.1, (dictLookup a kv.1).getD kv.2)) ++
    a.filter (fun kv => (dictLookup t kv.1).isNone)

/-- One assignment step of the merge, in normal form. -/
theorem dictMergeExplicit_set (t a' : Dict) (k v : String)
    (hndt : (dictKeys t).Nodup) (hk : k ∉ dictKeys a') :
    dictMergeExplicit (dictSet t k v) a' = dictMergeExplicit t ((k, v) :: a') := by
  have hlk : dictLookup a' k = none := (dictLookup_eq_none_iff a' k).mpr hk
  unfold dictMergeExplicit
  have hfilter : a'.filter (fun kv => (dictLookup (dictSet t k v) kv.1).isNone) =
      a'.filter (fun kv => (dictLookup t kv.1).isNone) := by
    apply List.filter_congr
    intro kv hkv
    have hne : kv.1 ≠ k := by
      intro h
      exact hk (h ▸ (List.mem_map.mpr ⟨kv, hkv, rfl⟩ : kv.1 ∈ dictKeys a'))
    rw [dictLookup_dictSet_ne t k v kv.1 hne]
  have hmap : (dictSet t k v).map (fun kv => (kv.1, (dictLookup a' kv.1).getD kv.2)) =
      t.map (fun kv => (kv.1, (dictLookup ((k, v) :: a') kv.1).getD kv.2)) ++
        (if k ∈ dictKeys t then [] else [(k, v)]) := by
    clear hfilter
    induction t with
    | nil => simp [dictSet, dictLookup, hlk]
    | cons kv rest ih =>
        obtain ⟨k', w⟩ := kv
        rw [dictKeys_cons, List.nodup_cons] at hndt
        by_cases h : k' = k
        · subst h
          have hrest : ∀ kv ∈ rest, kv.1 ≠ k' := by
            intro kv hkv h'
            exact hndt.1 (h' ▸ (List.mem_map.mpr ⟨kv, hkv, rfl⟩ : kv.1 ∈ dictKeys rest))
          simp only [dictSet_cons, if_pos rfl, List.map_cons, dictLookup_cons, if_pos rfl,
            Option.getD_some, dictKeys_cons, List.mem_cons, true_or, if_true, hlk,
            List.append_nil]
          congr 1
          apply List.map_congr_left
          intro kv hkv
          rw [if_neg (fun h'' => hrest kv hkv (Eq.symm h''))]
        · have hmem : (k ∈ k' :: dictKeys rest) ↔ k ∈ dictKeys rest := by
            rw [List.mem_cons]
            exact ⟨fun h'' => h''.resolve_left (fun h' => h (Eq.symm h')), Or.inr⟩
          simp only [dictSet_cons, if_neg h, List.map_cons, ih hndt.2, dictLookup_cons,
            dictKeys_cons, List.cons_append, hmem]
          rw [if_neg (fun h' => h (Eq.symm h'))]
  rw [hmap, hfilter]
  by_cases hkt : k ∈ dictKeys t
  · have hne : dictLookup t k ≠ none := fun h => (dictLookup_eq_none_iff t k).mp h hkt
    simp only [if_pos hkt, List.append_nil, List.filter_cons]
    rcases h : dictLookup t k with _ | w
    · exact absurd h hne
    · simp [h]
  · have hnone : dictLookup t k = none := (dictLookup_eq_none_iff t k).mpr hkt
    simp [if_neg hkt, List.filter_cons, hnone, List.append_assoc]

/-- The Python merge agrees with its explicit normal form on
duplicate-free dicts. -/
theorem dictMerge_eq_explicit (t a : Dict) (hndt : (dictKeys t).Nodup)
    (hnda : (dictKeys a).Nodup) : dictMerge t a = dictMergeExplicit t a := by
  induction a generalizing t with
  | nil => simp [dictMerge, dictMergeExplicit]
  | cons kv a' ih =>
      obtain ⟨k, v⟩ := kv
      rw [dictKeys_cons, List.nodup_cons] at hnda
      rw [dictMerge_cons, ih (dictSet t k v) (nodup_dictKeys_dictSet t k v hndt) hnda.2,
        dictMergeExplicit_set t a' k v hndt hnda.1]

/-- Keys untouched by the overlay keep their base lookup. -/
theorem dictLookup_dictMerge_notin (t a : Dict) (k : String)
    (hk : k ∉ dictKeys a) : dictLookup (dictMerge t a) k = dictLookup t k := by
  induction a generalizing t with
  | nil => rfl
  | cons kv a' ih =>
      obtain ⟨k', v'⟩ := kv
      rw [dictKeys_cons, List.mem_cons] at hk
      push_neg at hk
      rw [dictMerge_cons, ih (dictSet t k' v') (fun h => hk.2 h),
        dictLookup_dictSet_ne t k' v' k hk.1]

/-- Overlay keys dominate: any key of `a` looks up to `a`'s value in the
merge. -/
theorem dictLookup_dictMerge_of_mem (t a : Dict) (k : String)
    (hnda : (dictKeys a).Nodup) (hk : k ∈ dictKeys a) :
    dictLookup (dictMerge t a) k = dictLookup a k := by
  induction a generalizing t with
  | nil => cases hk
  | cons kv a' ih =>
      obtain ⟨k', v'⟩ := kv
      rw [dictKeys_cons, List.nodup_cons] at hnda
      rw [dictKeys_cons, List.mem_cons] at hk
      by_cases h : k = k'
      · subst h
        rw [dictMerge_cons, dictLookup_dictMerge_notin _ _ _ hnda.1,
          dictLookup_dictSet_self, dictLookup_cons, if_pos rfl]
      · rcases hk with h' | h'
        · exact absurd h' h
        · rw [dictMerge_cons, ih _ hnda.2 h', dictLookup_cons,
            if_neg (fun h'' => h (Eq.symm h''))]

theorem dictKeys_append (xs ys : Dict) :
    dictKeys (xs ++ ys) = dictKeys xs ++ dictKeys ys := List.map_append _ _ _

/-- The normal form of a merge of duplicate-free dicts has
duplicate-free keys. -/
theorem nodup_dictKeys_dictMergeExplicit (t a : Dict)
    (hndt : (dictKeys t).Nodup) (hnda : (dictKeys a).Nodup) :
    (dictKeys (dictMergeExplicit t a)).Nodup := by
  unfold dictMergeExplicit
  rw [dictKeys_append, List.nodup_append, dictKeys_map]
  refine ⟨hndt, ?_, ?_⟩
  · exact hnda.sublist (List.Sublist.map Prod.fst (List.filter_sublist a))
  · intro k hkt hkf
    rcases List.mem_map.mp hkf with ⟨kv, hkv, hfst⟩
    rcases List.mem_filter.mp hkv with ⟨_, hp⟩
    rw [hfst, Option.isNone_iff_eq_none] at hp
    exact (dictLookup_eq_none_iff t k).mp hp hkt

/-- Merging the same base a second time over an already-merged dict is
the identity: `{**t, **{**t, **a}} = {**t, **a}` for duplicate-free
dicts. -/
theorem dictMerge_idem (t a : Dict) (hndt : (dictKeys t).Nodup)
    (hnda : (dictKeys a).Nodup) :
    dictMerge t (dictMerge t a) = dictMerge t a := by
  rw [dictMerge_eq_explicit t a hndt hnda,
    dictMerge_eq_explicit t (dictMergeExplicit t a) hndt
      (nodup_dictKeys_dictMergeExplicit t a hndt hnda)]
  conv_rhs => rw [dictMergeExplicit]
  rw [dictMergeExplicit]
  have hmap : t.map (fun kv => (kv.1, (dictLookup (dictMergeExplicit t a) kv.1).getD kv.2)) =
      t.map (fun kv => (kv.1, (dictLookup a kv.1).getD kv.2)) := by
    apply List.map_congr_left
    intro kv hkv
    obtain ⟨k, w⟩ := kv
    have hlm : dictLookup (dictMergeExplicit t a) k = some ((dictLookup a k).getD w) := by
      unfold dictMergeExplicit
      rw [dictLookup_append,
        dictLookup_map_of_mem t (fun kv => (dictLookup a kv.1).getD kv.2) k w hndt hkv]
    simp [hlm]
  have hfilter : (dictMergeExplicit t a).filter (fun kv => (dictLookup t kv.1).isNone) =
      a.filter (fun kv => (dictLookup t kv.1).isNone) := by
    unfold dictMergeExplicit
    rw [List.filter_append]
    have h1 : (t.map (fun kv => (kv.1, (dictLookup a kv.1).getD kv.2))).filter
        (fun kv => (dictLookup t kv.1).isNone) = [] := by
      rw [List.filter_eq_nil_iff]
      intro kv hkv
      rcases List.mem_map.mp hkv with ⟨kv₀, hkv₀, hkveq⟩
      have hk : kv.1 ∈ dictKeys t := by
        rw [← hkveq]
        exact List.mem_map.mpr ⟨kv₀, hkv₀, rfl⟩
      rcases h : dictLookup t kv.1 with _ | w₀
      · exact absurd ((dictLookup_eq_none_iff t kv.1).mp h) (fun h' => h' hk)
      · simp [h]
    have h2 : ((a.filter (fun kv => (dictLookup t kv.1).isNone)).filter
        (fun kv => (dictLookup t kv.1).isNone)) =
        a.filter (fun kv => (dictLookup t kv.1).isNone) := by
      rw [List.filter_filter]
      simp
    rw [h1, h2, List.nil_append]
  rw [hmap, hfilter]

/-! ## XML element trees

`xml.etree.ElementTree` documents as a mutual element/forest inductive.
`iterTag` is `Element.iter(tag)` (document-order traversal, the element
itself included); `findChildTag` is `Element.find(tag)` (first direct
child only).  In-place attribute mutation of a loop
`for obj in root.iter(tag): obj.attrib = g(obj.attrib)` is embedded as
the pure rewrite `mapAttrsByTag tag g` (only attributes change, so the
live traversal is unaffected by the mutation). -/

mutual
inductive XmlElem : Type where
  | mk : String → Dict → XmlForest → XmlElem
inductive XmlForest : Type where
  | nil : XmlForest
  | cons : XmlElem → XmlForest → XmlForest
end

deriving instance DecidableEq for XmlElem
deriving instance Repr for XmlElem

def XmlElem.tag : XmlElem → String
  | .mk t _ _ => t

def XmlElem.attrib : XmlElem → Dict
  | .mk _ a _ => a

def XmlElem.children : XmlElem → XmlForest
  | .mk _ _ c => c

mutual

/-- `Element.iter(tag)`: all elements with the given tag, in document
order, the element itself included. -/
def iterTag (t : String) : XmlElem → List XmlElem
  | .mk tag a c => (if tag = t then [XmlElem.mk tag a c] else []) ++ iterTagF t c

def iterTagF (t : String) : XmlForest → List XmlElem
  | .nil => []
  | .cons e f => iterTag t e ++ iterTagF t f

end

/-- `Element.find(tag)`: the first direct child with the given tag. -/
def findChildTagF (t : String) : XmlForest → Option XmlElem
  | .nil => none
  | .cons e f => if e.tag = t then some e else findChildTagF t f

def findChildTag (t : String) (e : XmlElem) : Option XmlElem :=
  findChildTagF t e.children

mutual

/-- Rewrite the attributes of every element carrying the given tag. -/
def mapAttrsByTag (t : String) (g : Dict → Dict) : XmlElem → XmlElem
  | .mk tag a c => .mk tag (if tag = t then g a else a) (mapAttrsByTagF t g c)

def mapAttrsByTagF (t : String) (g : Dict → Dict) : XmlForest → XmlForest
  | .nil => .nil
  | .cons e f => .cons (mapAttrsByTag t g e) (mapAttrsByTagF t g f)

end

mutual

/-- Fallible attribute rewrite: `none` embeds an uncaught Python
exception raised while processing some matching element. -/
def mapAttrsByTagO (t : String) (g : Dict → Option Dict) : XmlElem → Option XmlElem
  | .mk tag a c =>
      match (if tag = t then g a else some a) with
      | none => none
      | some a' =>
          match mapAttrsByTagFO t g c with
          | none => none
          | some c' => some (.mk tag a' c')

def mapAttrsByTagFO (t : String) (g : Dict → Option Dict) : XmlForest → Option XmlForest
  | .nil => some .nil
  | .cons e f =>
      match mapAttrsByTagO t g e with
      | none => none
      | some e' =>
          match mapAttrsByTagFO t g f with
          | none => none
          | some f' => some (.cons e' f')

end

mutual

/-- The attributes of the iterated elements after a same-tag rewrite are
the rewritten attributes of the originally iterated elements. -/
theorem attribs_iterTag_mapAttrsByTag (t : String) (g : Dict → Dict) (e : XmlElem) :
    (iterTag t (mapAttrsByTag t g e)).map XmlElem.attrib =
      (iterTag t e).map (fun el => g el.attrib) := by
  cases e with
  | mk tag a c =>
      by_cases h : tag = t <;>
        simp [iterTag, mapAttrsByTag, h, XmlElem.attrib,
          attribs_iterTagF_mapAttrsByTagF t g c]

theorem attribs_iterTagF_mapAttrsByTagF (t : String) (g : Dict → Dict) (f : XmlForest) :
    (iterTagF t (mapAttrsByTagF t g f)).map XmlElem.attrib =
      (iterTagF t f).map (fun el => g el.attrib) := by
  cases f with
  | nil => rfl
  | cons e f' =>
      simp [iterTagF, mapAttrsByTagF, attribs_iterTag_mapAttrsByTag t g e,
        attribs_iterTagF_mapAttrsByTagF t g f']

end

mutual

/-- A fallible rewrite succeeds when the per-element rewrite succeeds on
every iterated element's attributes. -/
theorem mapAttrsByTagO_isSome (t : String) (g : Dict → Option Dict) (e : XmlElem)
    (h : ∀ a ∈ (iterTag t e).map XmlElem.attrib, (g a).isSome) :
    (mapAttrsByTagO t g e).isSome := by
  cases e with
  | mk tag a c =>
      have hc : (mapAttrsByTagFO t g c).isSome := by
        apply mapAttrsByTagFO_isSome
        intro a' ha'
        apply h
        simp only [iterTag, List.map_append, List.mem_append]
        exact Or.inr ha'
      by_cases htag : tag = t
      · have hga : (g a).isSome := by
          apply h
          simp [iterTag, htag, XmlElem.attrib]
        rcases hg : g a with _ | a'
        · rw [hg] at hga; cases hga
        · rcases hfo : mapAttrsByTagFO t g c with _ | c'
          · rw [hfo] at hc; cases hc
          · simp [mapAttrsByTagO, htag, hg, hfo]
      · rcases hfo : mapAttrsByTagFO t g c with _ | c'
        · rw [hfo] at hc; cases hc
        · simp [mapAttrsByTagO, htag, hfo]

theorem mapAttrsByTagFO_isSome (t : String) (g : Dict → Option Dict) (f : XmlForest)
    (h : ∀ a ∈ (iterTagF t f).map XmlElem.attrib, (g a).isSome) :
    (mapAttrsByTagFO t g f).isSome := by
  cases f with
  | nil => simp [mapAttrsByTagFO]
  | cons e f' =>
      have he : (mapAttrsByTagO t g e).isSome := by
        apply mapAttrsByTagO_isSome
        intro a' ha'
        apply h
        simp only [iterTagF, List.map_append, List.mem_append]
        exact Or.inl ha'
      have hf : (mapAttrsByTagFO t g f').isSome := by
        apply mapAttrsByTagFO_isSome
        intro a' ha'
        apply h
        simp only [iterTagF, List.map_append, List.mem_append]
        exact Or.inr ha'
      rcases hoe : mapAttrsByTagO t g e with _ | e'
      · rw [hoe] at he; cases he
      · rcases hof : mapAttrsByTagFO t g f' with _ | f''
        · rw [hof] at hf; cases hf
        · simp [mapAttrsByTagFO, hoe, hof]

end

mutual

/-- On success, the fallible rewrite transforms the iterated elements'
attributes pointwise. -/
theorem attribs_iterTag_mapAttrsByTagO (t : String) (g : Dict → Option Dict)
    (e e' : XmlElem) (h : mapAttrsByTagO t g e = some e') :
    (iterTag t e').map XmlElem.attrib =
      (iterTag t e).map (fun el => (g el.attrib).getD el.attrib) := by
  cases e with
  | mk tag a c =>
      rw [mapAttrsByTagO] at h
      rcases hga : (if tag = t then g a else some a) with _ | a₀
      · rw [hga] at h; cases h
      · rw [hga] at h
        rcases hfo : mapAttrsByTagFO t g c with _ | c₀
        · rw [hfo] at h; cases h
        · rw [hfo] at h
          cases h
          have hrec := attribs_iterTagF_mapAttrsByTagFO t g c c₀ hfo
          by_cases htag : tag = t
          · rw [if_pos htag] at hga
            simp [iterTag, htag, XmlElem.attrib, hrec, hga]
          · rw [if_neg htag] at hga
            cases hga
            simp [iterTag, htag, hrec]

theorem attribs_iterTagF_mapAttrsByTagFO (t : String) (g : Dict → Option Dict)
    (f f' : XmlForest) (h : mapAttrsByTagFO t g f = some f') :
    (iterTagF t f').map XmlElem.attrib =
      (iterTagF t f).map (fun el => (g el.attrib).getD el.attrib) := by
  cases f with
  | nil => cases h; rfl
  | cons e f₀ =>
      rw [mapAttrsByTagFO] at h
      rcases hoe : mapAttrsByTagO t g e with _ | e'
      · rw [hoe] at h; cases h
      · rw [hoe] at h
        rcases hof : mapAttrsByTagFO t g f₀ with _ | f₁
        · rw [hof] at h; cases h
        · rw [hof] at h
          cases h
          simp [iterTagF, attribs_iterTag_mapAttrsByTagO t g e e' hoe,
            attribs_iterTagF_mapAttrsByTagFO t g f₀ f₁ hof]

end

/-! ## URL encoding

`urllib.parse.quote_plus` with its default safe set: ASCII letters,
digits and `_.-~` pass through, a space becomes `+`, every other
character is UTF-8-encoded and each byte written as `%XX` (uppercase
hex).  `unquotePlusBytes` is the inverse decode down to the UTF-8 byte
sequence. -/

/-- Characters `quote_plus` leaves unencoded. -/
def isUrlSafe (c : Char) : Bool :=
  c.isAlpha || c.isDigit || c = '_' || c = '.' || c = '-' || c = '~'

/-- Uppercase hexadecimal digit. -/
def hexDigit (n : Nat) : Char :=
  if n < 10 then Char.ofNat (48 + n) else Char.ofNat (55 + n)

/-- The UTF-8 encoding of one character, as byte values. -/
def utf8Bytes (c : Char) : List Nat :=
  if c.toNat < 128 then [c.toNat]
  else if c.toNat < 2048 then [192 + c.toNat / 64, 128 + c.toNat % 64]
  else if c.toNat < 65536 then
    [224 + c.toNat / 4096, 128 + c.toNat / 64 % 64, 128 + c.toNat % 64]
  else
    [240 + c.toNat / 262144, 128 + c.toNat / 4096 % 64, 128 + c.toNat / 64 % 64,
      128 + c.toNat % 64]

/-- `%XX` escape of one byte. -/
def percentByte (b : Nat) : List Char :=
  ['%', hexDigit (b / 16), hexDigit (b % 16)]

/-- `quote_plus` on one character. -/
def quotePlusChar (c : Char) : List Char :=
  if isUrlSafe c then [c]
  else if c = ' ' then ['+']
  else (utf8Bytes c).flatMap percentByte

/-- `urllib.parse.quote_plus`. -/
def quotePlus (s : String) : String :=
  ⟨s.data.flatMap quotePlusChar⟩

/-- Value of a hexadecimal digit character. -/
def hexVal (c : Char) : Option Nat :=
  if 48 ≤ c.toNat ∧ c.toNat ≤ 57 then some (c.toNat - 48)
  else if 65 ≤ c.toNat ∧ c.toNat ≤ 70 then some (c.toNat - 55)
  else if 97 ≤ c.toNat ∧ c.toNat ≤ 102 then some (c.toNat - 87)
  else none

/-- URL-decoding (`unquote_plus`) down to the UTF-8 byte sequence:
`+` is a space, `%XX` is the byte `0xXX`, any other character
contributes its own UTF-8 bytes. -/
def unquotePlusBytes : List Char → List Nat
  | [] => []
  | '+' :: rest => 32 :: unquotePlusBytes rest
  | '%' :: a :: b :: r2 =>
      match hexVal a, hexVal b with
      | some x, some y => (16 * x + y) :: unquotePlusBytes r2
      | _, _ => utf8Bytes '%' ++ unquotePlusBytes (a :: b :: r2)
  | c :: rest => utf8Bytes c ++ unquotePlusBytes rest

/-- The UTF-8 byte sequence of a string. -/
def strUtf8 (s : String) : List Nat := s.data.flatMap utf8Bytes

theorem hexVal_hexDigit (x : Nat) (h : x < 16) : hexVal (hexDigit x) = some x := by
  interval_cases x <;> decide

theorem char_toNat_lt (c : Char) : c.toNat < 1114112 := by
  rcases c.valid with h | ⟨_, h⟩
  · exact Nat.lt_trans h (by decide)
  · exact h

theorem utf8Bytes_lt (c : Char) : ∀ b ∈ utf8Bytes c, b < 256 := by
  have hc := char_toNat_lt c
  intro b hb
  unfold utf8Bytes at hb
  by_cases h1 : c.toNat < 128
  · rw [if_pos h1] at hb
    simp only [List.mem_singleton] at hb
    omega
  · rw [if_neg h1] at hb
    by_cases h2 : c.toNat < 2048
    · rw [if_pos h2] at hb
      simp only [List.mem_cons, List.mem_singleton, List.not_mem_nil, or_false] at hb
      rcases hb with h | h <;> omega
    · rw [if_neg h2] at hb
      by_cases h3 : c.toNat < 65536
      · rw [if_pos h3] at hb
        simp only [List.mem_cons, List.not_mem_nil, or_false] at hb
        rcases hb with h | h | h <;> omega
      · rw [if_neg h3] at hb
        simp only [List.mem_cons, List.not_mem_nil, or_false] at hb
        rcases hb with h | h | h | h <;> omega

theorem unquote_cons_plus (rest : List Char) :
    unquotePlusBytes ('+' :: rest) = 32 :: unquotePlusBytes rest := rfl

theorem unquote_cons_percent (a b : Char) (r2 : List Char) (x y : Nat)
    (ha : hexVal a = some x) (hb : hexVal b = some y) :
    unquotePlusBytes ('%' :: a :: b :: r2) = (16 * x + y) :: unquotePlusBytes r2 := by
  simp [unquotePlusBytes, ha, hb]

theorem unquote_cons_other (c : Char) (rest : List Char)
    (h1 : c ≠ '+') (h2 : c ≠ '%') :
    unquotePlusBytes (c :: rest) = utf8Bytes c ++ unquotePlusBytes rest := by
  rcases rest with _ | ⟨a, _ | ⟨b, r2⟩⟩ <;> simp [unquotePlusBytes, h1, h2]

theorem unquote_percent_bind (bs : List Nat) (h : ∀ b ∈ bs, b < 256) (rest : List Char) :
    unquotePlusBytes (bs.flatMap percentByte ++ rest) = bs ++ unquotePlusBytes rest := by
  induction bs with
  | nil => simp
  | cons b bs' ih =>
      have hb : b < 256 := h b (List.mem_cons_self b bs')
      have h16 : b / 16 < 16 := by omega
      have h16' : b % 16 < 16 := by omega
      have hassoc : (b :: bs').flatMap percentByte ++ rest =
          '%' :: hexDigit (b / 16) :: hexDigit (b % 16) ::
            (bs'.flatMap percentByte ++ rest) := by
        simp [percentByte]
      rw [hassoc,
        unquote_cons_percent _ _ _ _ _ (hexVal_hexDigit _ h16) (hexVal_hexDigit _ h16'),
        ih (fun b' hb' => h b' (List.mem_cons_of_mem b hb'))]
      rw [List.cons_append]
      congr 1
      omega

theorem unquote_quoteChar (c : Char) (rest : List Char) :
    unquotePlusBytes (quotePlusChar c ++ rest) = utf8Bytes c ++ unquotePlusBytes rest := by
  unfold quotePlusChar
  by_cases hsafe : isUrlSafe c
  · have h1 : c ≠ '+' := by
      intro h; rw [h] at hsafe; exact absurd hsafe (by decide)
    have h2 : c ≠ '%' := by
      intro h; rw [h] at hsafe; exact absurd hsafe (by decide)
    rw [if_pos hsafe, List.cons_append, List.nil_append, unquote_cons_other c rest h1 h2]
  · by_cases hsp : c = ' '
    · subst hsp
      rw [if_neg hsafe, if_pos rfl, List.cons_append, List.nil_append, unquote_cons_plus]
      rfl
    · rw [if_neg hsafe, if_neg hsp, unquote_percent_bind (utf8Bytes c) (utf8Bytes_lt c) rest]

/-- Round-trip: URL-decoding a `quote_plus`-encoded string recovers
exactly the UTF-8 byte sequence of the original string. -/
theorem unquote_quotePlus (s : String) :
    unquotePlusBytes (quotePlus s).data = strUtf8 s := by
  show unquotePlusBytes (s.data.flatMap quotePlusChar) = strUtf8 s
  unfold strUtf8
  induction s.data with
  | nil => rfl
  | cons c cs ih =>
      rw [List.flatMap_cons, List.flatMap_cons, unquote_quoteChar c _, ih]

/-! ## File system, environment and template-cache state

The server process's surroundings: the set of readable regular files
(path to content and modification time), the XML parser
(`ETree.fromstring`, `none` embedding a `ParseError`), gzip
decompression (`Except` error embedding a raised decompression
exception), strict UTF-8 decoding (`bytes.decode('utf-8')`, `none`
embedding a raised `UnicodeDecodeError` — file contents are byte
strings, and only `read_room` decodes them), and the three
construction-time parameters of `AdServerAssetReader`.  Modification
times are embedded as naturals. -/

def alistLookup {α : Type} : List (String × α) → String → Option α
  | [], _ => none
  | (k', v) :: rest, k => if k' = k then some v else alistLookup rest k

def alistSet {α : Type} : List (String × α) → String → α → List (String × α)
  | [], k, v => [(k, v)]
  | (k', v') :: rest, k, v =>
      if k' = k then (k', v) :: rest else (k', v') :: alistSet rest k v

structure FileData where
  content : String
  mtime : Nat
  deriving DecidableEq, Repr

structure Env where
  files : List (String × FileData)
  parse : String → Option XmlElem
  gunzip : String → Except Unit String
  decode : String → Option String
  asset_dir : String
  default_level : Option String
  do_obstacle_loading : Bool

/-- `os.path.join` for the relative, slash-free-prefix names the server
builds (no absolute-path second argument occurs in the model). -/
def pjoin (a b : String) : String := a ++ "/" ++ b

/-- `AdServerAssetReader._get_asset_path`: every asset is stored with an
extra `.mp3` suffix under the asset root. -/
def getAssetPath (env : Env) (path : String) : String :=
  pjoin env.asset_dir (path ++ ".mp3")

/-- `path_is_readable` on an already-joined path: in the model the file
table holds exactly the readable regular files. -/
def pathIsReadable (env : Env) (abspath : String) : Bool :=
  (alistLookup env.files abspath).isSome

/-- `AdServerAssetReader.read_asset`. -/
def read_asset (env : Env) (path : String) : Option String :=
  (alistLookup env.files (getAssetPath env path)).map FileData.content

/-- The mutable fields `_templates` / `_templates_mtime` of
`AdServerAssetReader`. -/
structure ReaderState where
  templates : Option (List (String × Dict))
  templates_mtime : Nat
  deriving DecidableEq, Repr

/-- Building the name-to-attributes mapping from a parsed
`templates.xml` document: every `<template name=...>` element with a
direct `<properties .../>` child contributes its properties' attributes;
elements without a name or without such a child are skipped. -/
def buildTemplates (root : XmlElem) : List (String × Dict) :=
  (iterTag "template" root).foldl
    (fun acc t =>
      match dictLookup t.attrib "name" with
      | none => acc
      | some nm =>
          match findChildTag "properties" t with
          | none => acc
          | some pe => alistSet acc nm pe.attrib)
    []

def templatesAbsPath (env : Env) : String := getAssetPath env "templates.xml"

/-- `AdServerAssetReader.update_templates`, instrumented: the second
component logs the relative paths whose content is read via
`read_asset` (the mtime probe `p.getmtime` is not a content read). -/
def update_templatesT (env : Env) (st : ReaderState) : ReaderState × List String :=
  match alistLookup env.files (templatesAbsPath env) with
  | none => (⟨none, 0⟩, [])
  | some f =>
      if st.templates_mtime ≥ f.mtime then (st, [])
      else
        match env.parse f.content with
        | none => (st, ["templates.xml"])
        | some root => (⟨some (buildTemplates root), f.mtime⟩, ["templates.xml"])

/-- `AdServerAssetReader.update_templates`. -/
def update_templates (env : Env) (st : ReaderState) : ReaderState :=
  (update_templatesT env st).1

/-- `AdServerAssetReader.__init__`: fields start as `None` / `0.0` and
`update_templates` runs once. -/
def initReaderState (env : Env) : ReaderState :=
  update_templates env ⟨none, 0⟩

/-! ## Protocol version and callback URLs -/

/-- Python `f'&pv={pv}' if pv else ''`: both `None` and `0` are falsy. -/
def pvString (pv : Option Int) : String :=
  match pv with
  | none => ""
  | some n => if n = 0 then "" else "&pv=" ++ toString n

/-- Python `pv and pv >= 3`. -/
def segPvGate (pv : Option Int) : Bool :=
  match pv with
  | none => false
  | some n => decide (n ≠ 0) && decide (3 ≤ n)

/-- The room callback URL written into level documents. -/
def roomUrl (hostname t : String) (pv : Option Int) : String :=
  "http://" ++ hostname ++ ":8000/room?type=" ++ quotePlus t ++ pvString pv ++ "&ignore="

/-- The obstacle callback URL written into segment documents. -/
def obstacleUrl (hostname t : String) (pv : Option Int) : String :=
  "http://" ++ hostname ++ ":8000/obstacle?type=" ++ quotePlus t ++ pvString pv ++ "&ignore="

/-- Uncaught Python exceptions escaping a reader operation. -/
inductive PyErr where
  | typeError
  | gzipError
  | unicodeDecodeError
  deriving DecidableEq, Repr

/-! ## Serialization

`ETree.tostring(root, encoding='utf-8', method='xml')`, simplified:
attribute-value escaping and the self-closing empty-tag form are not
modeled (no claim inspects the serialized text beyond equality). -/

def serializeAttrs (a : Dict) : String :=
  a.foldl (fun acc kv => acc ++ " " ++ kv.1 ++ "=\"" ++ kv.2 ++ "\"") ""

mutual

def serializeElem : XmlElem → String
  | .mk tag a c =>
      "<" ++ tag ++ serializeAttrs a ++ ">" ++ serializeForest c ++ "</" ++ tag ++ ">"

def serializeForest : XmlForest → String
  | .nil => ""
  | .cons e f => serializeElem e ++ serializeForest f

end

def xmlDeclaration : String := "<?xml version='1.0' encoding='utf-8'?>\n"

def tostring (e : XmlElem) : String := xmlDeclaration ++ serializeElem e

/-! ## Level rewriting -/

/-- Per-room attribute rewrite: `rm.attrib['type'] = f'http://...'` after
`urlquote(rm.get('type'))`.  A room without a `type` attribute makes
`urlquote(None)` raise `TypeError`, embedded as `none`. -/
def roomAttrRewrite (hostname : String) (pv : Option Int) (a : Dict) : Option Dict :=
  match dictLookup a "type" with
  | none => none
  | some t => some (dictSet a "type" (roomUrl hostname t pv))

def levelRewriteTree (hostname : String) (pv : Option Int) (root : XmlElem) :
    Option XmlElem :=
  mapAttrsByTagO "room" (roomAttrRewrite hostname pv) root

/-- `AdServerAssetReader.read_level`. -/
def read_level (env : Env) (level_type : Option String) (pv : Option Int)
    (hostname : String) : Except PyErr (Option String) :=
  match (match level_type with
         | some t => some t
         | none => env.default_level) with
  | none => .ok none
  | some t =>
      match read_asset env (pjoin "levels" (t ++ ".xml")) with
      | none => .ok none
      | some content =>
          match env.parse content with
          | none => .ok none
          | some root =>
              match levelRewriteTree hostname pv root with
              | none => .error .typeError
              | some root' => .ok (some (tostring root'))

/-! ## Room rewriting (`asset_server.py` variant)

A wrapper function is prepended and every whole-word occurrence of
`mgSegment` — `re.sub` with pattern `(\W|^)mgSegment(\W|$)` — is renamed
to the wrapper.  The scanner below mirrors `re.sub`'s left-to-right
scan: a match consumes its delimiting non-word character, and `\W` is
approximated by ASCII non-word characters. -/

def isPyWordChar (c : Char) : Bool := c.isAlphanum || c = '_'

def mgSegmentChars : List Char := "mgSegment".data

def wrapperNameChars : List Char := "__shas_mgSegment_wrapper__".data

/-- Try to match `mgSegment(\W|$)` at the head of `l`; on success return
the consumed trailing delimiter (if any) and the remainder. -/
def mgMatchAfter (l : List Char) : Option (Option Char × List Char) :=
  if mgSegmentChars.isPrefixOf l then
    match l.drop 9 with
    | [] => some (none, [])
    | c :: r => if isPyWordChar c then none else some (some c, r)
  else none

theorem mgMatchAfter_length (l : List Char) (d : Option Char) (r : List Char)
    (h : mgMatchAfter l = some (d, r)) : r.length + 9 ≤ l.length := by
  unfold mgMatchAfter at h
  by_cases hp : mgSegmentChars.isPrefixOf l
  · rw [if_pos hp] at h
    have hlen : 9 ≤ l.length := by
      have h9 : mgSegmentChars.length = 9 := rfl
      have := (List.isPrefixOf_iff_prefix.mp hp).length_le
      omega
    rcases hdrop : l.drop 9 with _ | ⟨c, r'⟩
    · rw [hdrop] at h
      cases h
      simpa using hlen
    · rw [hdrop] at h
      dsimp only at h
      by_cases hw : isPyWordChar c
      · rw [if_pos hw] at h; cases h
      · rw [if_neg hw] at h
        cases h
        have hl := congrArg List.length hdrop
        rw [List.length_drop] at hl
        simp only [List.length_cons] at hl
        omega
  · rw [if_neg hp] at h; cases h

/-- The scan from any position after the start: a match here must begin
with a non-word delimiter character, which the match consumes. -/
def mgSubGo (l : List Char) : List Char :=
  match l with
  | [] => []
  | c :: rest =>
      if isPyWordChar c then c :: mgSubGo rest
      else
        match hm : mgMatchAfter rest with
        | some (d, r) => c :: (wrapperNameChars ++ d.toList ++ mgSubGo r)
        | none => c :: mgSubGo rest
termination_by l.length
decreasing_by
  all_goals simp only [List.length_cons]
  · omega
  · have := mgMatchAfter_length _ _ _ hm
    omega
  · omega

/-- `re_mgSeg.sub(repl, s)`: at position zero the `^` alternative allows a
match with no leading delimiter; afterwards `mgSubGo` scans. -/
def mgSub (l : List Char) : List Char :=
  match mgMatchAfter l with
  | some (d, r) => wrapperNameChars ++ d.toList ++ mgSubGo r
  | none => mgSubGo l

/-- The prepended Lua wrapper (`mgSegment_wrapper`), with hostname and
pv suffix substituted (`%s` slots, `%%` collapsed). -/
def mgWrapper (hostname : String) (pv : Option Int) : String :=
  "local function __shas_mgSegment_wrapper__(type, depth)\n    type = string.gsub(type, \"[ !#$%%&'()*+,/:;=?@%[%]]\", function(x)\n        return string.format(\"%%%02X\", string.byte(x))\n    end)\n    return mgSegment(\"http://" ++
    hostname ++ ":8000/segment?type=\" .. type .. \"" ++ pvString pv ++
    "&filetype=\", depth)\nend\n"

/-- `AdServerAssetReader.read_room`:
`room_content.decode('utf-8')` is strict, so a room asset whose bytes
are not valid UTF-8 raises `UnicodeDecodeError` out of the reader. -/
def read_room (env : Env) (room_type : Option String) (pv : Option Int)
    (hostname : String) : Except PyErr (Option String) :=
  match room_type with
  | none => .ok none
  | some t =>
      match read_asset env (pjoin "rooms" (t ++ ".lua")) with
      | none => .ok none
      | some content =>
          match env.decode content with
          | none => .error .unicodeDecodeError
          | some text => .ok (some (mgWrapper hostname pv ++ String.mk (mgSub text.data)))

/-! ## Segment rewriting -/

/-- The merge step of `read_segment` for one `box` or `obstacle`
element: if a `template` attribute names a known template, delete it and
merge the template's attributes underneath (`{**template, **attrib}`). -/
def applyTemplate (tpls : List (String × Dict)) (a : Dict) : Dict :=
  match dictLookup a "template" with
  | none => a
  | some nm =>
      match alistLookup tpls nm with
      | none => a
      | some props => dictMerge props (dictDel a "template")

/-- The template-merging phase: skipped entirely when the cache is
`None`; otherwise one pass over `box` elements then one over `obstacle`
elements. -/
def segTemplatePass (tpls : Option (List (String × Dict))) (root : XmlElem) : XmlElem :=
  match tpls with
  | none => root
  | some d => mapAttrsByTag "obstacle" (applyTemplate d) (mapAttrsByTag "box" (applyTemplate d) root)

/-- Whether the obstacle-rewrite step emits a callback URL for a given
obstacle type: lazy loading enabled and `obstacles/{type}.lua` readable. -/
def obstacleCanLoad (env : Env) : String → Bool := fun t =>
  env.do_obstacle_loading && pathIsReadable env (getAssetPath env (pjoin "obstacles" (t ++ ".lua")))

/-- Per-obstacle attribute rewrite of the `pv >= 3` step. -/
def obstacleAttrRewrite (canLoad : String → Bool) (pv : Option Int) (hostname : String)
    (a : Dict) : Dict :=
  match dictLookup a "type" with
  | none => a
  | some t =>
      if canLoad t then dictSet a "type" (obstacleUrl hostname t pv)
      else dictSet a "type" ("obstacles/" ++ t)

/-- The in-memory rewriting done by `read_segment` on a parsed document. -/
def segRewriteTree (tpls : Option (List (String × Dict))) (canLoad : String → Bool)
    (pv : Option Int) (hostname : String) (root : XmlElem) : XmlElem :=
  let merged := segTemplatePass tpls root
  if segPvGate pv then
    mapAttrsByTag "obstacle" (obstacleAttrRewrite canLoad pv hostname) merged
  else merged

/-- Everything `read_segment` does after the content bytes are in hand:
parse (failure returns the raw bytes unchanged, cache untouched),
refresh the template cache, rewrite, serialize. -/
def processSegmentContent (env : Env) (st : ReaderState) (content : String)
    (pv : Option Int) (hostname : String) : Except PyErr (Option String) × ReaderState :=
  match env.parse content with
  | none => (.ok (some content), st)
  | some root =>
      let st' := update_templates env st
      (.ok (some (tostring (segRewriteTree st'.templates (obstacleCanLoad env) pv hostname root))),
        st')

/-- The resolution order of `read_segment`: `segments/{type}.xml` first,
then `segments/{type}.xml.gz` decompressed, else absent. -/
def resolveSegmentContent (env : Env) (t : String) : Except PyErr (Option String) :=
  match read_asset env (pjoin "segments" (t ++ ".xml")) with
  | some c => .ok (some c)
  | none =>
      match read_asset env (pjoin "segments" (t ++ ".xml.gz")) with
      | none => .ok none
      | some g =>
          match env.gunzip g with
          | .error _ => .error .gzipError
          | .ok d => .ok (some d)

/-- `AdServerAssetReader.read_segment` (`asset_server.py` variant, which
guards a `None` type), with the template-cache state passed explicitly. -/
def read_segment (env : Env) (st : ReaderState) (segment_type : Option String)
    (pv : Option Int) (hostname : String) : Except PyErr (Option String) × ReaderState :=
  match segment_type with
  | none => (.ok none, st)
  | some t =>
      match resolveSegmentContent env t with
      | .error e => (.error e, st)
      | .ok none => (.ok none, st)
      | .ok (some c) => processSegmentContent env st c pv hostname

/-- `AdServerAssetReader.read_segment_mesh`: `segment_type + '.mesh'`
raises `TypeError` when the type is `None`. -/
def read_segment_mesh (env : Env) (segment_type : Option String) :
    Except PyErr (Option String) :=
  match segment_type with
  | none => .error .typeError
  | some t => .ok (read_asset env (pjoin "segments" (t ++ ".mesh")))

/-- `AdServerAssetReader.read_obstacle`: `obstacle_type + '.lua'` raises
`TypeError` when the type is `None`. -/
def read_obstacle (env : Env) (obstacle_type : Option String) :
    Except PyErr (Option String) :=
  match obstacle_type with
  | none => .error .typeError
  | some t => .ok (read_asset env (pjoin "obstacles" (t ++ ".lua")))

/-! ## Request handling -/

structure HTTPResponse where
  status : Nat
  contentType : String
  content : String
  deriving DecidableEq, Repr

def notFoundBody : String :=
  "<html><head><title>404 Not Found</title></head><body><h1>404 Not Found</h1><p><i>Smash Hit level server</i></p></body></html>"

/-- `HTTPResponse.not_found()`. -/
def notFoundResponse : HTTPResponse := ⟨404, "text/html", notFoundBody⟩

/-- `AdRequestHandler._conditional_response`. -/
def conditionalResponse (content : Option String) (ct : String) : HTTPResponse :=
  match content with
  | none => notFoundResponse
  | some b => ⟨200, ct, b⟩

/-- A GET request after the handler's own parsing: the
`urljoin('/', ...)`-normalized path, the `parse_qs` query table and the
`Host` header's hostname part. -/
structure Request where
  path : String
  queries : List (String × List String)
  hostname : String

/-- `AdRequestHandler._get_query`. -/
def getQuery (req : Request) (name : String) : Option String :=
  match alistLookup req.queries name with
  | none => none
  | some vs => vs.head?

def digitsToNat (ds : List Char) : Nat :=
  ds.foldl (fun n c => 10 * n + (c.toNat - 48)) 0

/-- Python `int(s)` on a decimal string: optional sign then digits
(whitespace/underscore tolerance not modeled); `none` embeds a raised
`ValueError`. -/
def pyParseInt (s : String) : Option Int :=
  match s.data with
  | '-' :: ds =>
      if ds ≠ [] ∧ ds.all Char.isDigit then some (-(digitsToNat ds : Int)) else none
  | '+' :: ds =>
      if ds ≠ [] ∧ ds.all Char.isDigit then some (digitsToNat ds : Int) else none
  | ds =>
      if ds ≠ [] ∧ ds.all Char.isDigit then some (digitsToNat ds : Int) else none

/-- `AdRequestHandler._get_pv`: `TypeError` (absent) and `ValueError`
(malformed) are both caught and yield `None`. -/
def getPv (req : Request) : Option Int :=
  match getQuery req "pv" with
  | none => none
  | some s => pyParseInt s

/-- `AdRequestHandler.do_GET`, with the template-cache state passed
explicitly; an `error` result embeds an exception escaping the handler. -/
def do_GET (env : Env) (st : ReaderState) (req : Request) :
    Except PyErr (HTTPResponse × ReaderState) :=
  let pv := getPv req
  if req.path = "/level" then
    match read_level env (getQuery req "type") pv req.hostname with
    | .error e => .error e
    | .ok c => .ok (conditionalResponse c "text/xml", st)
  else if req.path = "/room" then
    match read_room env (getQuery req "type") pv req.hostname with
    | .error e => .error e
    | .ok c => .ok (conditionalResponse c "text/plain", st)
  else if req.path = "/segment" then
    if getQuery req "filetype" = some ".xml" then
      match read_segment env st (getQuery req "type") pv req.hostname with
      | (.error e, _) => .error e
      | (.ok c, st') => .ok (conditionalResponse c "text/xml", st')
    else if getQuery req "filetype" = some ".mesh" then
      match read_segment_mesh env (getQuery req "type") with
      | .error e => .error e
      | .ok c => .ok (conditionalResponse c "application/octet-stream", st)
    else .ok (notFoundResponse, st)
  else if req.path = "/obstacle" then
    match read_obstacle env (getQuery req "type") with
    | .error e => .error e
    | .ok c => .ok (conditionalResponse c "text/plain", st)
  else .ok (notFoundResponse, st)

/-! ## Template-cache lemmas -/

theorem update_templates_eq (env : Env) (st : ReaderState) :
    update_templates env st = (update_templatesT env st).1 := rfl

theorem update_templatesT_missing (env : Env) (st : ReaderState)
    (h : alistLookup env.files (templatesAbsPath env) = none) :
    update_templatesT env st = (⟨none, 0⟩, []) := by
  unfold update_templatesT
  rw [h]

theorem update_templatesT_stale (env : Env) (st : ReaderState) (f : FileData)
    (hf : alistLookup env.files (templatesAbsPath env) = some f)
    (hm : f.mtime ≤ st.templates_mtime) :
    update_templatesT env st = (st, []) := by
  unfold update_templatesT
  rw [hf]
  exact if_pos hm

theorem update_templatesT_parsefail (env : Env) (st : ReaderState) (f : FileData)
    (hf : alistLookup env.files (templatesAbsPath env) = some f)
    (hm : st.templates_mtime < f.mtime) (hp : env.parse f.content = none) :
    update_templatesT env st = (st, ["templates.xml"]) := by
  unfold update_templatesT
  rw [hf]
  dsimp only
  rw [if_neg (by omega : ¬st.templates_mtime ≥ f.mtime), hp]

theorem update_templatesT_fresh (env : Env) (st : ReaderState) (f : FileData)
    (root : XmlElem)
    (hf : alistLookup env.files (templatesAbsPath env) = some f)
    (hm : st.templates_mtime < f.mtime) (hp : env.parse f.content = some root) :
    update_templatesT env st = (⟨some (buildTemplates root), f.mtime⟩, ["templates.xml"]) := by
  unfold update_templatesT
  rw [hf]
  dsimp only
  rw [if_neg (by omega : ¬st.templates_mtime ≥ f.mtime), hp]

/-- The four possible outcomes of a cache refresh. -/
theorem update_templates_characterization (env : Env) (st : ReaderState) :
    update_templates env st = ⟨none, 0⟩ ∨ update_templates env st = st ∨
      ∃ f root, alistLookup env.files (templatesAbsPath env) = some f ∧
        env.parse f.content = some root ∧
        update_templates env st = ⟨some (buildTemplates root), f.mtime⟩ := by
  rcases hf : alistLookup env.files (templatesAbsPath env) with _ | f
  · exact Or.inl (by rw [update_templates_eq, update_templatesT_missing env st hf])
  · by_cases hm : f.mtime ≤ st.templates_mtime
    · exact Or.inr (Or.inl (by rw [update_templates_eq, update_templatesT_stale env st f hf hm]))
    · push_neg at hm
      rcases hp : env.parse f.content with _ | root
      · exact Or.inr (Or.inl
          (by rw [update_templates_eq, update_templatesT_parsefail env st f hf hm hp]))
      · refine Or.inr (Or.inr ⟨f, root, rfl, hp, ?_⟩)
        rw [update_templates_eq, update_templatesT_fresh env st f root hf hm hp]

/-- The cache is `None` or a mapping built from one successfully parsed
`templates.xml` content. -/
def TemplatesInv (env : Env) (st : ReaderState) : Prop :=
  st.templates = none ∨
    ∃ content root, env.parse content = some root ∧
      st.templates = some (buildTemplates root)

/-! ## Sample environments used by witnesses -/

def envEmpty : Env where
  files := []
  parse := fun _ => none
  gunzip := fun s => .ok s
  decode := fun s => some s
  asset_dir := "assets"
  default_level := none
  do_obstacle_loading := false

def tplRoot : XmlElem :=
  .mk "templates" []
    (.cons (.mk "template" [("name", "t1")]
      (.cons (.mk "properties" [("color", "red")] .nil) .nil)) .nil)

def envTplBad : Env where
  files := [("assets/templates.xml.mp3", ⟨"BAD", 5⟩)]
  parse := fun s => if s = "TPL" then some tplRoot else none
  gunzip := fun s => .ok s
  decode := fun s => some s
  asset_dir := "assets"
  default_level := none
  do_obstacle_loading := false

def envTpl : Env where
  files := [("assets/templates.xml.mp3", ⟨"TPL", 5⟩)]
  parse := fun s => if s = "TPL" then some tplRoot else none
  gunzip := fun s => .ok s
  decode := fun s => some s
  asset_dir := "assets"
  default_level := none
  do_obstacle_loading := false

/-! ## Claim theorems -/

/-- C7: template merging is element-dominant (every key present on the
element keeps the element's value through `{**template, **attrib}`) and
idempotent (merging the same template a second time over the merged
result is the identity), for attribute mappings with distinct keys as
Python dicts guarantee. -/
theorem template_merge_dominant_idempotent (t a : Dict)
    (hndt : (dictKeys t).Nodup) (hnda : (dictKeys a).Nodup) :
    (∀ k, k ∈ dictKeys a → dictLookup (dictMerge t a) k = dictLookup a k) ∧
      dictMerge t (dictMerge t a) = dictMerge t a :=
  ⟨fun k hk => dictLookup_dictMerge_of_mem t a k hnda hk, dictMerge_idem t a hndt hnda⟩

theorem template_merge_dominant_idempotent_witness :
    (∀ k, k ∈ dictKeys [("size", "5"), ("shape", "box")] →
        dictLookup (dictMerge [("color", "red"), ("size", "2")]
          [("size", "5"), ("shape", "box")]) k =
          dictLookup [("size", "5"), ("shape", "box")] k) ∧
      dictMerge [("color", "red"), ("size", "2")]
          (dictMerge [("color", "red"), ("size", "2")] [("size", "5"), ("shape", "box")]) =
        dictMerge [("color", "red"), ("size", "2")] [("size", "5"), ("shape", "box")] :=
  template_merge_dominant_idempotent _ _ (by decide) (by decide)

/-- C5: refreshing the template cache clears it entirely (mapping
`None`, mtime `0`) when the templates file is missing or unreadable, and
is a content-read-free no-op when the file's modification time is not
strictly newer than the stored one; the plain refresh is the first
component of the instrumented one. -/
theorem update_templates_missing_clears_stale_noop (env : Env) :
    (∀ st, alistLookup env.files (templatesAbsPath env) = none →
        update_templatesT env st = (⟨none, 0⟩, [])) ∧
      (∀ st f, alistLookup env.files (templatesAbsPath env) = some f →
        f.mtime ≤ st.templates_mtime → update_templatesT env st = (st, [])) ∧
      (∀ st, update_templates env st = (update_templatesT env st).1) :=
  ⟨fun st h => update_templatesT_missing env st h,
   fun st f hf hm => update_templatesT_stale env st f hf hm,
   fun _ => rfl⟩

theorem update_templates_missing_clears_stale_noop_witness :
    update_templatesT envEmpty ⟨some [("t1", [("color", "red")])], 3⟩ = (⟨none, 0⟩, []) ∧
      update_templatesT envTpl ⟨some [("t1", [("color", "red")])], 7⟩ =
        (⟨some [("t1", [("color", "red")])], 7⟩, []) :=
  ⟨(update_templates_missing_clears_stale_noop envEmpty).1 _ rfl,
   (update_templates_missing_clears_stale_noop envTpl).2.1 _ ⟨"TPL", 5⟩ (by decide)
     (by decide)⟩

/-- C3: the template-cache invariant — the mapping is `None` or fully
built from one successfully parsed `templates.xml` — holds after
construction and is preserved by every refresh; and a refresh that
reaches the parser and fails leaves mapping and mtime exactly as they
were. -/
theorem template_cache_all_or_nothing (env : Env) :
    TemplatesInv env (initReaderState env) ∧
      (∀ st, TemplatesInv env st → TemplatesInv env (update_templates env st)) ∧
      (∀ st f, alistLookup env.files (templatesAbsPath env) = some f →
        st.templates_mtime < f.mtime → env.parse f.content = none →
        update_templates env st = st) := by
  have hpres : ∀ st, TemplatesInv env st → TemplatesInv env (update_templates env st) := by
    intro st hst
    rcases update_templates_characterization env st with h | h | ⟨f, root, _, hp, h⟩
    · rw [h]
      exact Or.inl rfl
    · rw [h]
      exact hst
    · rw [h]
      exact Or.inr ⟨f.content, root, hp, rfl⟩
  refine ⟨hpres ⟨none, 0⟩ (Or.inl rfl), hpres, ?_⟩
  intro st f hf hm hp
  rw [update_templates_eq, update_templatesT_parsefail env st f hf hm hp]

theorem template_cache_all_or_nothing_witness :
    TemplatesInv envTplBad (initReaderState envTplBad) ∧
      (TemplatesInv envTplBad ⟨none, 3⟩ →
        TemplatesInv envTplBad (update_templates envTplBad ⟨none, 3⟩)) ∧
      update_templates envTplBad ⟨none, 3⟩ = ⟨none, 3⟩ := by
  obtain ⟨h1, h2, h3⟩ := template_cache_all_or_nothing envTplBad
  exact ⟨h1, h2 ⟨none, 3⟩, h3 ⟨none, 3⟩ ⟨"BAD", 5⟩ (by decide) (by decide) (by decide)⟩

/-- C10: a segment rewrite never mutates the cached template mappings:
the refresh is idempotent, and when the templates file is unchanged
(the state is a refresh fixpoint) the cache state after `read_segment`
equals the state before it, so repeated rewrites observe the same
template attributes. -/
theorem segment_rewrite_cache_frame (env : Env) :
    (∀ st, update_templates env (update_templates env st) = update_templates env st) ∧
      (∀ st seg_t pv hostname, update_templates env st = st →
        (read_segment env st seg_t pv hostname).2 = st) := by
  constructor
  · intro st
    rcases hf : alistLookup env.files (templatesAbsPath env) with _ | f
    · have hst : update_templates env st = ⟨none, 0⟩ := by
        rw [update_templates_eq, update_templatesT_missing env st hf]
      have hst0 : update_templates env (⟨none, 0⟩ : ReaderState) = ⟨none, 0⟩ := by
        rw [update_templates_eq, update_templatesT_missing env _ hf]
      rw [hst, hst0]
    · by_cases hm : f.mtime ≤ st.templates_mtime
      · have hst : update_templates env st = st := by
          rw [update_templates_eq, update_templatesT_stale env st f hf hm]
        rw [hst, hst]
      · push_neg at hm
        rcases hp : env.parse f.content with _ | root
        · have hst : update_templates env st = st := by
            rw [update_templates_eq, update_templatesT_parsefail env st f hf hm hp]
          rw [hst, hst]
        · have hst : update_templates env st = ⟨some (buildTemplates root), f.mtime⟩ := by
            rw [update_templates_eq, update_templatesT_fresh env st f root hf hm hp]
          have hst' : update_templates env ⟨some (buildTemplates root), f.mtime⟩ =
              ⟨some (buildTemplates root), f.mtime⟩ := by
            rw [update_templates_eq, update_templatesT_stale env _ f hf (le_refl f.mtime)]
          rw [hst, hst']
  · intro st seg_t pv hostname hfix
    rcases seg_t with _ | t
    · rfl
    · unfold read_segment
      dsimp only
      rcases hr : resolveSegmentContent env t with e | oc
      · rfl
      · rcases oc with _ | c
        · rfl
        · dsimp only
          unfold processSegmentContent
          rcases hp : env.parse c with _ | root
          · rfl
          · dsimp only
            exact hfix

theorem segment_rewrite_cache_frame_witness :
    update_templates envEmpty ⟨none, 0⟩ = ⟨none, 0⟩ ∧
      (read_segment envEmpty ⟨none, 0⟩ (some "s1") none "localhost").2 = ⟨none, 0⟩ :=
  ⟨(segment_rewrite_cache_frame envEmpty).1 ⟨none, 0⟩,
   (segment_rewrite_cache_frame envEmpty).2 ⟨none, 0⟩ (some "s1") none "localhost" rfl⟩

/-! ## Further rewrite lemmas and remaining claim theorems -/

mutual

/-- Converse of `mapAttrsByTagO_isSome`: success means the per-element
rewrite succeeded on every iterated element. -/
theorem mapAttrsByTagO_forall_isSome (t : String) (g : Dict → Option Dict)
    (e : XmlElem) (e' : XmlElem) (h : mapAttrsByTagO t g e = some e') :
    ∀ a ∈ (iterTag t e).map XmlElem.attrib, (g a).isSome := by
  cases e with
  | mk tag a c =>
      rw [mapAttrsByTagO] at h
      rcases hga : (if tag = t then g a else some a) with _ | a₀
      · rw [hga] at h; cases h
      · rw [hga] at h
        rcases hfo : mapAttrsByTagFO t g c with _ | c₀
        · rw [hfo] at h; cases h
        · intro a' ha'
          by_cases htag : tag = t
          · simp only [iterTag, if_pos htag, List.map_append, List.mem_append,
              List.map_cons, List.map_nil, List.mem_cons, XmlElem.attrib] at ha'
            rcases ha' with (ha' | ha') | ha'
            · subst ha'
              rw [if_pos htag] at hga
              simp [hga]
            · cases ha'
            · exact mapAttrsByTagFO_forall_isSome t g c c₀ hfo a' ha'
          · simp only [iterTag, if_neg htag, List.nil_append] at ha'
            exact mapAttrsByTagFO_forall_isSome t g c c₀ hfo a' ha'

theorem mapAttrsByTagFO_forall_isSome (t : String) (g : Dict → Option Dict)
    (f : XmlForest) (f' : XmlForest) (h : mapAttrsByTagFO t g f = some f') :
    ∀ a ∈ (iterTagF t f).map XmlElem.attrib, (g a).isSome := by
  cases f with
  | nil =>
      intro a ha
      simp [iterTagF] at ha
  | cons e f₀ =>
      rw [mapAttrsByTagFO] at h
      rcases hoe : mapAttrsByTagO t g e with _ | e'
      · rw [hoe] at h; cases h
      · rw [hoe] at h
        rcases hof : mapAttrsByTagFO t g f₀ with _ | f₁
        · rw [hof] at h; cases h
        · intro a' ha'
          simp only [iterTagF, List.map_append, List.mem_append] at ha'
          rcases ha' with ha' | ha'
          · exact mapAttrsByTagO_forall_isSome t g e e' hoe a' ha'
          · exact mapAttrsByTagFO_forall_isSome t g f₀ f₁ hof a' ha'

end

/-- Zip a transformed element list against its source: if the images
under `F` of the output list are the images under `G` of the input list,
and `Q` holds of each input element and its `G`-image, then `Q` relates
the input elements to the `F`-images of the output elements pointwise. -/
theorem forall₂_of_map_eq {α β γ : Type} (F : α → γ) (G : β → γ) (Q : β → γ → Prop) :
    ∀ (l₁ : List β) (l₂ : List α), l₂.map F = l₁.map G →
      (∀ b ∈ l₁, Q b (G b)) → List.Forall₂ (fun b a => Q b (F a)) l₁ l₂
  | [], [] => fun _ _ => List.Forall₂.nil
  | [], a :: l₂ => fun h _ => by simp at h
  | b :: l₁, [] => fun h _ => by simp at h
  | b :: l₁, a :: l₂ => fun h hq => by
      simp only [List.map_cons, List.cons.injEq] at h
      exact List.Forall₂.cons (h.1 ▸ hq b (List.mem_cons_self b l₁))
        (forall₂_of_map_eq F G Q l₁ l₂ h.2 (fun b' hb' => hq b' (List.mem_cons_of_mem _ hb')))

/-! ## Sample level/segment environments -/

def lvlRoot : XmlElem :=
  .mk "level" [] (.cons (.mk "room" [("type", "room a")] .nil) .nil)

def lvlRootRw : XmlElem :=
  .mk "level" [] (.cons (.mk "room" [("type", roomUrl "localhost" "room a" (some 2))] .nil) .nil)

def envLvl : Env where
  files := [("assets/levels/forest.xml.mp3", ⟨"LVL", 1⟩)]
  parse := fun s => if s = "LVL" then some lvlRoot else none
  gunzip := fun s => .ok s
  decode := fun s => some s
  asset_dir := "assets"
  default_level := none
  do_obstacle_loading := false

def lvlRootBad : XmlElem :=
  .mk "level" [] (.cons (.mk "room" [] .nil) .nil)

def envLvlBad : Env where
  files := [("assets/levels/forest.xml.mp3", ⟨"LVLB", 1⟩)]
  parse := fun s => if s = "LVLB" then some lvlRootBad else none
  gunzip := fun s => .ok s
  decode := fun s => some s
  asset_dir := "assets"
  default_level := none
  do_obstacle_loading := false

def obstRoot : XmlElem :=
  .mk "segment" [] (.cons (.mk "obstacle" [("type", "rock")] .nil) .nil)

def envObst : Env where
  files := [("assets/obstacles/rock.lua.mp3", ⟨"-- lua", 1⟩),
            ("assets/segments/cave.xml.mp3", ⟨"SEG", 1⟩)]
  parse := fun s => if s = "SEG" then some obstRoot else none
  gunzip := fun s => .ok s
  decode := fun s => some s
  asset_dir := "assets"
  default_level := none
  do_obstacle_loading := true

/-- C2: obstacle `type` rewriting in a segment document happens exactly
when a pv is present with `pv >= 3`; it sends a `type`-carrying obstacle
to the callback URL when lazy loading is on and `obstacles/{type}.lua`
is readable, and to `obstacles/{type}` otherwise; obstacles without a
`type` and runs with absent or small pv leave attributes untouched by
this step. -/
theorem segment_obstacle_pv_gating (env : Env) (st : ReaderState)
    (tpls : Option (List (String × Dict))) (pv : Option Int) (hostname : String)
    (content : String) (root : XmlElem) :
    (env.parse content = some root →
      processSegmentContent env st content pv hostname =
        (.ok (some (tostring (segRewriteTree (update_templates env st).templates
          (obstacleCanLoad env) pv hostname root))), update_templates env st)) ∧
    (segPvGate pv = true ↔ ∃ n, pv = some n ∧ 3 ≤ n) ∧
    (∀ t, obstacleCanLoad env t =
      (env.do_obstacle_loading &&
        pathIsReadable env (getAssetPath env (pjoin "obstacles" (t ++ ".lua"))))) ∧
    (segPvGate pv = true →
      (iterTag "obstacle" (segRewriteTree tpls (obstacleCanLoad env) pv hostname root)).map
          XmlElem.attrib =
        (iterTag "obstacle" (segTemplatePass tpls root)).map
          (fun el => obstacleAttrRewrite (obstacleCanLoad env) pv hostname el.attrib)) ∧
    (∀ a t, dictLookup a "type" = some t →
      obstacleAttrRewrite (obstacleCanLoad env) pv hostname a =
        if obstacleCanLoad env t then dictSet a "type" (obstacleUrl hostname t pv)
        else dictSet a "type" ("obstacles/" ++ t)) ∧
    (∀ a, dictLookup a "type" = none →
      obstacleAttrRewrite (obstacleCanLoad env) pv hostname a = a) ∧
    (segPvGate pv = false →
      segRewriteTree tpls (obstacleCanLoad env) pv hostname root = segTemplatePass tpls root) := by
  refine ⟨?_, ?_, fun _ => rfl, ?_, ?_, ?_, ?_⟩
  · intro hp
    unfold processSegmentContent
    rw [hp]
  · cases pv with
    | none => simp [segPvGate]
    | some n =>
        simp only [segPvGate, Bool.and_eq_true, decide_eq_true_eq]
        constructor
        · rintro ⟨_, h3⟩
          exact ⟨n, rfl, h3⟩
        · rintro ⟨m, hm, h3⟩
          cases hm
          exact ⟨by omega, h3⟩
  · intro hgate
    unfold segRewriteTree
    rw [if_pos hgate]
    exact attribs_iterTag_mapAttrsByTag "obstacle"
      (obstacleAttrRewrite (obstacleCanLoad env) pv hostname) (segTemplatePass tpls root)
  · intro a t ht
    unfold obstacleAttrRewrite
    rw [ht]
  · intro a ht
    unfold obstacleAttrRewrite
    rw [ht]
  · intro hgate
    unfold segRewriteTree
    rw [if_neg (by simp [hgate])]

theorem segment_obstacle_pv_gating_witness :
    (iterTag "obstacle"
        (segRewriteTree none (obstacleCanLoad envObst) (some 3) "h" obstRoot)).map
        XmlElem.attrib =
      (iterTag "obstacle" (segTemplatePass none obstRoot)).map
        (fun el => obstacleAttrRewrite (obstacleCanLoad envObst) (some 3) "h" el.attrib) ∧
    obstacleAttrRewrite (obstacleCanLoad envObst) (some 3) "h" [("type", "rock")] =
      dictSet [("type", "rock")] "type" (obstacleUrl "h" "rock" (some 3)) := by
  have h := segment_obstacle_pv_gating envObst ⟨none, 0⟩ none (some 3) "h" "SEG" obstRoot
  refine ⟨h.2.2.2.1 (by decide), ?_⟩
  rw [h.2.2.2.2.1 [("type", "rock")] "rock" (by decide)]
  rw [if_pos (by decide : obstacleCanLoad envObst "rock" = true)]

/-- C4: in a successful level rewrite every `room` element's `type`
attribute becomes the absolute callback URL
`http://{hostname}:8000/room?type={quote_plus type}{pv}&ignore=`, and
URL-decoding the embedded `type` parameter recovers exactly the
original room type (as its UTF-8 bytes), for every room element. -/
theorem level_room_url_roundtrip (env : Env) (lt content : String)
    (hostname : String) (pv : Option Int) (root root' : XmlElem)
    (hread : read_asset env (pjoin "levels" (lt ++ ".xml")) = some content)
    (hparse : env.parse content = some root)
    (h : levelRewriteTree hostname pv root = some root') :
    read_level env (some lt) pv hostname = .ok (some (tostring root')) ∧
      List.Forall₂ (fun el el' => ∃ t,
          dictLookup (XmlElem.attrib el) "type" = some t ∧
          dictLookup (XmlElem.attrib el') "type" = some (roomUrl hostname t pv) ∧
          unquotePlusBytes (quotePlus t).data = strUtf8 t)
        (iterTag "room" root) (iterTag "room" root') := by
  constructor
  · unfold read_level
    dsimp only
    rw [hread]
    dsimp only
    rw [hparse]
    dsimp only
    rw [h]
  · have hmap := attribs_iterTag_mapAttrsByTagO "room" (roomAttrRewrite hostname pv)
      root root' h
    have hall := mapAttrsByTagO_forall_isSome "room" (roomAttrRewrite hostname pv)
      root root' h
    have hforall₂ := forall₂_of_map_eq XmlElem.attrib
      (fun el => (roomAttrRewrite hostname pv (XmlElem.attrib el)).getD (XmlElem.attrib el))
      (fun el c => ∃ t,
        dictLookup (XmlElem.attrib el) "type" = some t ∧
        dictLookup c "type" = some (roomUrl hostname t pv) ∧
        unquotePlusBytes (quotePlus t).data = strUtf8 t)
      (iterTag "room" root) (iterTag "room" root') hmap ?_
    · exact hforall₂
    · intro el hel
      have hsome := hall (XmlElem.attrib el) (List.mem_map_of_mem XmlElem.attrib hel)
      rcases ht : dictLookup (XmlElem.attrib el) "type" with _ | t
      · simp [roomAttrRewrite, ht] at hsome
      · refine ⟨t, rfl, ?_, unquote_quotePlus t⟩
        simp [roomAttrRewrite, ht, dictLookup_dictSet_self]

theorem level_room_url_roundtrip_witness :
    read_level envLvl (some "forest") (some 2) "localhost" = .ok (some (tostring lvlRootRw)) ∧
      List.Forall₂ (fun el el' => ∃ t,
          dictLookup (XmlElem.attrib el) "type" = some t ∧
          dictLookup (XmlElem.attrib el') "type" = some (roomUrl "localhost" t (some 2)) ∧
          unquotePlusBytes (quotePlus t).data = strUtf8 t)
        (iterTag "room" lvlRoot) (iterTag "room" lvlRootRw) :=
  level_room_url_roundtrip envLvl "forest" "LVL" "localhost" (some 2) lvlRoot lvlRootRw
    (by decide) (by decide) (by decide)

/-- C9: the level rewrite returns a payload whenever every `room`
element of the parsed document carries a `type` attribute; and on a
concrete level document containing a `room` without `type`, it raises
(`urlquote(None)` → `TypeError`) instead of returning a payload or
absent. -/
theorem read_level_requires_room_types (env : Env) (lt content : String)
    (hostname : String) (pv : Option Int) (root : XmlElem)
    (hread : read_asset env (pjoin "levels" (lt ++ ".xml")) = some content)
    (hparse : env.parse content = some root)
    (hall : ∀ a ∈ (iterTag "room" root).map XmlElem.attrib, dictLookup a "type" ≠ none) :
    (∃ out, read_level env (some lt) pv hostname = .ok (some out)) ∧
      read_level envLvlBad (some "forest") none "localhost" = .error .typeError := by
  constructor
  · have hsome : (levelRewriteTree hostname pv root).isSome := by
      apply mapAttrsByTagO_isSome
      intro a ha
      have := hall a ha
      rcases ht : dictLookup a "type" with _ | t
      · exact absurd ht this
      · simp [roomAttrRewrite, ht]
    rcases hshape : levelRewriteTree hostname pv root with _ | root'
    · rw [hshape] at hsome
      cases hsome
    · refine ⟨tostring root', ?_⟩
      unfold read_level
      dsimp only
      rw [hread]
      dsimp only
      rw [hparse]
      dsimp only
      rw [hshape]
  · rfl

theorem read_level_requires_room_types_witness :
    (∃ out, read_level envLvl (some "forest") (some 2) "localhost" = .ok (some out)) ∧
      read_level envLvlBad (some "forest") none "localhost" = .error .typeError :=
  read_level_requires_room_types envLvl "forest" "LVL" "localhost" (some 2) lvlRoot
    (by decide) (by decide) (by decide)

/-- A middle factor of a three-part string concatenation is an infix of
its character list. -/
theorem isInfix_data_of_middle (a b c : String) :
    List.IsInfix b.data (a ++ b ++ c).data :=
  ⟨a.data, c.data, by simp [String.data_append]⟩

/-- C8 (amended): every callback URL carries the suffix `&pv={pv}` when
pv is present and NONZERO; when pv is absent — or present but zero,
which the code's truthiness test `if pv` treats like absence — the
generated URLs and wrapper are exactly their pv-less forms, with no pv
parameter.  The last conjunct anchors `roomUrl` in the level rewrite's
output. -/
theorem pv_echoed_in_callback_urls (hostname t : String) (pv : Option Int)
    (root root' : XmlElem) (h : levelRewriteTree hostname pv root = some root') :
    (pvString none = "" ∧ pvString (some 0) = "" ∧
      ∀ n : Int, n ≠ 0 → pvString (some n) = "&pv=" ++ toString n) ∧
    (roomUrl hostname t pv =
      "http://" ++ hostname ++ ":8000/room?type=" ++ quotePlus t ++ pvString pv ++
        "&ignore=") ∧
    (obstacleUrl hostname t pv =
      "http://" ++ hostname ++ ":8000/obstacle?type=" ++ quotePlus t ++ pvString pv ++
        "&ignore=") ∧
    (∀ n : Int, pv = some n → n ≠ 0 →
      List.IsInfix ("&pv=" ++ toString n).data (roomUrl hostname t pv).data ∧
      List.IsInfix ("&pv=" ++ toString n).data (obstacleUrl hostname t pv).data ∧
      List.IsInfix ("&pv=" ++ toString n).data (mgWrapper hostname pv).data) ∧
    ((pv = none ∨ pv = some 0) →
      roomUrl hostname t pv = roomUrl hostname t none ∧
      obstacleUrl hostname t pv = obstacleUrl hostname t none ∧
      mgWrapper hostname pv = mgWrapper hostname none) ∧
    (iterTag "room" root').map XmlElem.attrib =
      (iterTag "room" root).map
        (fun el => (roomAttrRewrite hostname pv (XmlElem.attrib el)).getD
          (XmlElem.attrib el)) := by
  refine ⟨⟨rfl, rfl, fun n hn => by simp [pvString, hn]⟩, rfl, rfl, ?_, ?_, ?_⟩
  · rintro n rfl hn
    have hpv : pvString (some n) = "&pv=" ++ toString n := by simp [pvString, hn]
    refine ⟨?_, ?_, ?_⟩
    · have : roomUrl hostname t (some n) =
          ("http://" ++ hostname ++ ":8000/room?type=" ++ quotePlus t) ++
            ("&pv=" ++ toString n) ++ "&ignore=" := by
        simp only [roomUrl, hpv, String.append_assoc]
      rw [this]
      exact isInfix_data_of_middle _ _ _
    · have : obstacleUrl hostname t (some n) =
          ("http://" ++ hostname ++ ":8000/obstacle?type=" ++ quotePlus t) ++
            ("&pv=" ++ toString n) ++ "&ignore=" := by
        simp only [obstacleUrl, hpv, String.append_assoc]
      rw [this]
      exact isInfix_data_of_middle _ _ _
    · have : mgWrapper hostname (some n) =
          ("local function __shas_mgSegment_wrapper__(type, depth)\n    type = string.gsub(type, \"[ !#$%%&'()*+,/:;=?@%[%]]\", function(x)\n        return string.format(\"%%%02X\", string.byte(x))\n    end)\n    return mgSegment(\"http://" ++
            hostname ++ ":8000/segment?type=\" .. type .. \"") ++
            ("&pv=" ++ toString n) ++ "&filetype=\", depth)\nend\n" := by
        simp only [mgWrapper, hpv, String.append_assoc]
      rw [this]
      exact isInfix_data_of_middle _ _ _
  · rintro (rfl | rfl) <;>
      exact ⟨by simp [roomUrl, pvString], by simp [obstacleUrl, pvString],
        by simp [mgWrapper, pvString]⟩
  · exact attribs_iterTag_mapAttrsByTagO "room" (roomAttrRewrite hostname pv) root root' h

theorem pv_echoed_in_callback_urls_witness :
    (pvString none = "" ∧ pvString (some 0) = "" ∧
      ∀ n : Int, n ≠ 0 → pvString (some n) = "&pv=" ++ toString n) ∧
    (roomUrl "localhost" "room a" (some 2) =
      "http://" ++ "localhost" ++ ":8000/room?type=" ++ quotePlus "room a" ++
        pvString (some 2) ++ "&ignore=") ∧
    (obstacleUrl "localhost" "room a" (some 2) =
      "http://" ++ "localhost" ++ ":8000/obstacle?type=" ++ quotePlus "room a" ++
        pvString (some 2) ++ "&ignore=") ∧
    (∀ n : Int, some (2 : Int) = some n → n ≠ 0 →
      List.IsInfix ("&pv=" ++ toString n).data (roomUrl "localhost" "room a" (some 2)).data ∧
      List.IsInfix ("&pv=" ++ toString n).data
        (obstacleUrl "localhost" "room a" (some 2)).data ∧
      List.IsInfix ("&pv=" ++ toString n).data (mgWrapper "localhost" (some 2)).data) ∧
    ((some (2 : Int) = none ∨ some (2 : Int) = some 0) →
      roomUrl "localhost" "room a" (some 2) = roomUrl "localhost" "room a" none ∧
      obstacleUrl "localhost" "room a" (some 2) = obstacleUrl "localhost" "room a" none ∧
      mgWrapper "localhost" (some 2) = mgWrapper "localhost" none) ∧
    (iterTag "room" lvlRootRw).map XmlElem.attrib =
      (iterTag "room" lvlRoot).map
        (fun el => (roomAttrRewrite "localhost" (some 2) (XmlElem.attrib el)).getD
          (XmlElem.attrib el)) :=
  pv_echoed_in_callback_urls "localhost" "room a" (some 2) lvlRoot lvlRootRw (by decide)

theorem pv_echoed_in_callback_urls_counterexample :
    (some (0 : Int)) ≠ (none : Option Int) ∧
    levelRewriteTree "localhost" (some 0) lvlRoot =
      some (.mk "level" []
        (.cons (.mk "room" [("type", "http://localhost:8000/room?type=room+a&ignore=")] .nil)
          .nil)) ∧
    read_level envLvl (some "forest") (some 0) "localhost" =
      .ok (some (tostring (.mk "level" []
        (.cons (.mk "room" [("type", "http://localhost:8000/room?type=room+a&ignore=")] .nil)
          .nil)))) ∧
    ¬ List.IsInfix "&pv=".data "http://localhost:8000/room?type=room+a&ignore=".data :=
  ⟨by decide, by decide, rfl, by decide⟩

/-! ## Path disjointness and environment extensionality (for C6) -/

theorem string_append_ne_of_data_ne (s₁ s₂ : String) (h : s₁.data ≠ s₂.data) : s₁ ≠ s₂ :=
  fun he => h (congrArg String.data he)

/-- `_get_asset_path` is injective in the relative path. -/
theorem getAssetPath_inj (env : Env) (r₁ r₂ : String)
    (h : getAssetPath env r₁ = getAssetPath env r₂) : r₁ = r₂ := by
  unfold getAssetPath pjoin at h
  have hd := congrArg String.data h
  simp only [String.data_append] at hd
  have hd' := List.append_cancel_left hd
  have hdd := List.append_cancel_right hd'
  cases r₁
  cases r₂
  simp only at hdd
  rw [hdd]

theorem rel_segxml_ne_templates (t : String) :
    pjoin "segments" (t ++ ".xml") ≠ "templates.xml" := by
  apply string_append_ne_of_data_ne
  intro h
  unfold pjoin at h
  simp only [String.data_append] at h
  have := congrArg List.head? h
  simp at this

theorem rel_segxml_ne_obstacle (t x : String) :
    pjoin "segments" (t ++ ".xml") ≠ pjoin "obstacles" (x ++ ".lua") := by
  apply string_append_ne_of_data_ne
  intro h
  unfold pjoin at h
  simp only [String.data_append] at h
  have := congrArg List.head? h
  simp at this

/-- Refresh only looks at the templates file, so environments agreeing
there refresh identically. -/
theorem update_templates_env_ext (env env' : Env) (st : ReaderState)
    (hf : alistLookup env'.files (templatesAbsPath env') =
      alistLookup env.files (templatesAbsPath env))
    (hp : env'.parse = env.parse) :
    update_templates env' st = update_templates env st := by
  unfold update_templates update_templatesT
  rw [hf, hp]

/-- The post-resolution pipeline only touches the parser, the templates
file and the obstacle files. -/
theorem processSegmentContent_env_ext (env env' : Env) (st : ReaderState)
    (c : String) (pv : Option Int) (hostname : String)
    (hu : update_templates env' st = update_templates env st)
    (ho : obstacleCanLoad env' = obstacleCanLoad env)
    (hp : env'.parse = env.parse) :
    processSegmentContent env' st c pv hostname =
      processSegmentContent env st c pv hostname := by
  unfold processSegmentContent
  rw [hu, ho, hp]

/-! ## Sample gzip environment -/

def envGz : Env where
  files := [("assets/segments/cave.xml.gz.mp3", ⟨"GZ", 1⟩)]
  parse := fun s => if s = "SEG" then some obstRoot else none
  gunzip := fun s => if s = "GZ" then .ok "SEG" else .error ()
  decode := fun s => some s
  asset_dir := "assets"
  default_level := none
  do_obstacle_loading := true

/-- C6: segment content resolution tries `segments/{type}.xml` first and
uses it when present; only when it is absent is `segments/{type}.xml.gz`
consulted and decompressed; with neither the result is absent; and when
only the `.gz` exists, placing the decompressed bytes as
`segments/{type}.xml` (the stale `.gz` entry is then shadowed and never
consulted) yields a byte-for-byte identical operation result. -/
theorem segment_resolution_and_gzip_equivalence (env : Env) (st : ReaderState)
    (t : String) (pv : Option Int) (hostname : String) :
    (∀ c, read_asset env (pjoin "segments" (t ++ ".xml")) = some c →
      read_segment env st (some t) pv hostname =
        processSegmentContent env st c pv hostname) ∧
    (∀ g d, read_asset env (pjoin "segments" (t ++ ".xml")) = none →
      read_asset env (pjoin "segments" (t ++ ".xml.gz")) = some g →
      env.gunzip g = .ok d →
      read_segment env st (some t) pv hostname =
        processSegmentContent env st d pv hostname) ∧
    (read_asset env (pjoin "segments" (t ++ ".xml")) = none →
      read_asset env (pjoin "segments" (t ++ ".xml.gz")) = none →
      read_segment env st (some t) pv hostname = (.ok none, st)) ∧
    (∀ g d m, read_asset env (pjoin "segments" (t ++ ".xml")) = none →
      read_asset env (pjoin "segments" (t ++ ".xml.gz")) = some g →
      env.gunzip g = .ok d →
      read_segment
          { env with files :=
              (getAssetPath env (pjoin "segments" (t ++ ".xml")), ⟨d, m⟩) :: env.files }
          st (some t) pv hostname =
        read_segment env st (some t) pv hostname) := by
  have hres1 : ∀ c, read_asset env (pjoin "segments" (t ++ ".xml")) = some c →
      resolveSegmentContent env t = .ok (some c) := by
    intro c h
    unfold resolveSegmentContent
    rw [h]
  have hstep : ∀ c, resolveSegmentContent env t = .ok (some c) →
      read_segment env st (some t) pv hostname =
        processSegmentContent env st c pv hostname := by
    intro c h
    unfold read_segment
    dsimp only
    rw [h]
  refine ⟨fun c h => hstep c (hres1 c h), ?_, ?_, ?_⟩
  · intro g d h1 h2 h3
    apply hstep
    unfold resolveSegmentContent
    rw [h1]
    dsimp only
    rw [h2]
    dsimp only
    rw [h3]
  · intro h1 h2
    unfold read_segment
    dsimp only
    have : resolveSegmentContent env t = .ok none := by
      unfold resolveSegmentContent
      rw [h1]
      dsimp only
      rw [h2]
    rw [this]
  · intro g d m h1 h2 h3
    set env' : Env :=
      { env with files :=
          (getAssetPath env (pjoin "segments" (t ++ ".xml")), ⟨d, m⟩) :: env.files } with henv'
    have hread' : read_asset env' (pjoin "segments" (t ++ ".xml")) = some d := by
      unfold read_asset
      have : getAssetPath env' (pjoin "segments" (t ++ ".xml")) =
          getAssetPath env (pjoin "segments" (t ++ ".xml")) := rfl
      rw [this, henv']
      simp [alistLookup]
    have hres' : resolveSegmentContent env' t = .ok (some d) := by
      unfold resolveSegmentContent
      rw [hread']
    have hstep' : read_segment env' st (some t) pv hostname =
        processSegmentContent env' st d pv hostname := by
      unfold read_segment
      dsimp only
      rw [hres']
    rw [hstep']
    have h2' : read_segment env st (some t) pv hostname =
        processSegmentContent env st d pv hostname := by
      apply hstep
      unfold resolveSegmentContent
      rw [h1]
      dsimp only
      rw [h2]
      dsimp only
      rw [h3]
    rw [h2']
    apply processSegmentContent_env_ext
    · apply update_templates_env_ext
      · show alistLookup env'.files (templatesAbsPath env') =
          alistLookup env.files (templatesAbsPath env)
        have htp : templatesAbsPath env' = templatesAbsPath env := rfl
        rw [htp, henv']
        have hne : getAssetPath env (pjoin "segments" (t ++ ".xml")) ≠
            templatesAbsPath env := by
          intro h
          exact rel_segxml_ne_templates t (getAssetPath_inj env _ _ h)
        simp [alistLookup, hne]
      · rfl
    · funext x
      show (env'.do_obstacle_loading &&
          pathIsReadable env' (getAssetPath env' (pjoin "obstacles" (x ++ ".lua")))) =
        (env.do_obstacle_loading &&
          pathIsReadable env (getAssetPath env (pjoin "obstacles" (x ++ ".lua"))))
      have hdo : env'.do_obstacle_loading = env.do_obstacle_loading := rfl
      have hga : getAssetPath env' (pjoin "obstacles" (x ++ ".lua")) =
          getAssetPath env (pjoin "obstacles" (x ++ ".lua")) := rfl
      have hne : getAssetPath env (pjoin "segments" (t ++ ".xml")) ≠
          getAssetPath env (pjoin "obstacles" (x ++ ".lua")) := by
        intro h
        exact rel_segxml_ne_obstacle t x (getAssetPath_inj env _ _ h)
      rw [hdo, hga]
      unfold pathIsReadable
      rw [henv']
      simp [alistLookup, hne]
    · rfl

theorem segment_resolution_and_gzip_equivalence_witness :
    read_asset envGz (pjoin "segments" ("cave" ++ ".xml")) = none ∧
    read_asset envGz (pjoin "segments" ("cave" ++ ".xml.gz")) = some "GZ" ∧
    read_segment
        { envGz with files :=
            (getAssetPath envGz (pjoin "segments" ("cave" ++ ".xml")), ⟨"SEG", 7⟩) ::
              envGz.files }
        ⟨none, 0⟩ (some "cave") none "h" =
      read_segment envGz ⟨none, 0⟩ (some "cave") none "h" ∧
    read_segment envGz ⟨none, 0⟩ (some "cave") none "h" =
      processSegmentContent envGz ⟨none, 0⟩ "SEG" none "h" := by
  have h := segment_resolution_and_gzip_equivalence envGz ⟨none, 0⟩ "cave" none "h"
  exact ⟨by decide, by decide,
    h.2.2.2 "GZ" "SEG" 7 (by decide) (by decide) rfl,
    h.2.1 "GZ" "SEG" (by decide) (by decide) rfl⟩

/-! ## The `levelserver.py` variant

The second source file differs from `asset_server.py` in three places
that matter to error handling: its `read_room` rewrites the segment
reference's string literal in place (pattern
`(\W|^)(mg|conf)Segment\(\s*(?:(["\'])((?:\\.|(?!\3)[^\n\\])*)\3)`),
its `read_segment` has no `None` guard — with an absent type or an
unresolvable asset `segment_content` stays `None` and
`ETree.fromstring(None)` raises `TypeError`, which the `except
ParseError` does not catch — and its obstacle rewrite has no
lazy-loading flag. -/

/-- Python `\s` on ASCII (Unicode spaces not modeled). -/
def isPySpace (c : Char) : Bool :=
  c = ' ' || c = '\t' || c = '\n' || c = '\r' || c.toNat = 11 || c.toNat = 12

/-- The single-quote character (the second alternative of `["\']`). -/
def squote : Char := Char.ofNat 39

/-- Match `(mg|conf)Segment\(` at the head of `l`. -/
def matchSegPrefix (l : List Char) : Option (String × List Char) :=
  if "mgSegment(".data.isPrefixOf l then some ("mg", l.drop 10)
  else if "confSegment(".data.isPrefixOf l then some ("conf", l.drop 12)
  else none

/-- Scan the string-literal body `((?:\\.|(?!\3)[^\n\\])*)` up to the
closing quote `q`: a backslash escapes any non-newline character; a bare
newline, a trailing backslash or a missing closing quote fail the whole
match (the alternation is deterministic, so no backtracking succeeds). -/
def scanStrBody (q : Char) : List Char → Option (List Char × List Char)
  | [] => none
  | c :: rest =>
      if c = q then some ([], rest)
      else if c = '\\' then
        match rest with
        | [] => none
        | c2 :: rest2 =>
            if c2 = '\n' then none
            else
              match scanStrBody q rest2 with
              | none => none
              | some (b, r) => some (c :: c2 :: b, r)
      else if c = '\n' then none
      else
        match scanStrBody q rest with
        | none => none
        | some (b, r) => some (c :: b, r)

theorem scanStrBody_length (q : Char) :
    ∀ (l b r : List Char), scanStrBody q l = some (b, r) → r.length ≤ l.length
  | [], b, r => by simp [scanStrBody]
  | c :: rest, b, r => by
      intro h
      rw [scanStrBody.eq_def] at h
      dsimp only at h
      by_cases hq : c = q
      · rw [if_pos hq] at h
        cases h
        simp
      · rw [if_neg hq] at h
        by_cases hb : c = '\\'
        · rw [if_pos hb] at h
          rcases hrest : rest with _ | ⟨c2, rest2⟩
          · rw [hrest] at h; cases h
          · rw [hrest] at h
            dsimp only at h
            by_cases hn : c2 = '\n'
            · rw [if_pos hn] at h; cases h
            · rw [if_neg hn] at h
              rcases hs : scanStrBody q rest2 with _ | ⟨b', r'⟩
              · rw [hs] at h; cases h
              · rw [hs] at h
                have hrec := scanStrBody_length q rest2 b' r' hs
                cases h
                have hlen := congrArg List.length hrest
                simp only [List.length_cons] at hlen ⊢
                omega
        · rw [if_neg hb] at h
          by_cases hn : c = '\n'
          · rw [if_pos hn] at h; cases h
          · rw [if_neg hn] at h
            rcases hs : scanStrBody q rest with _ | ⟨b', r'⟩
            · rw [hs] at h; cases h
            · rw [hs] at h
              have hrec := scanStrBody_length q rest b' r' hs
              cases h
              simp only [List.length_cons]
              omega

/-- Try to match `(mg|conf)Segment\(\s*(["\'])(body)\3` at the head of
`l`; return the matched function prefix, the quote character, the
literal body and the remainder after the closing quote. -/
def matchSegCall (l : List Char) : Option (String × Char × List Char × List Char) :=
  match matchSegPrefix l with
  | none => none
  | some (pre, r1) =>
      match r1.dropWhile isPySpace with
      | [] => none
      | q :: r3 =>
          if q = '"' ∨ q = squote then
            match scanStrBody q r3 with
            | none => none
            | some (body, rest) => some (pre, q, body, rest)
          else none

theorem matchSegPrefix_length (l : List Char) (pre : String) (r : List Char)
    (h : matchSegPrefix l = some (pre, r)) : r.length ≤ l.length := by
  unfold matchSegPrefix at h
  by_cases h1 : "mgSegment(".data.isPrefixOf l
  · rw [if_pos h1] at h
    cases h
    simp [List.length_drop]
  · rw [if_neg h1] at h
    by_cases h2 : "confSegment(".data.isPrefixOf l
    · rw [if_pos h2] at h
      cases h
      simp [List.length_drop]
    · rw [if_neg h2] at h
      cases h

theorem matchSegCall_length (l : List Char) (pre : String) (q : Char)
    (body r : List Char) (h : matchSegCall l = some (pre, q, body, r)) :
    r.length ≤ l.length := by
  unfold matchSegCall at h
  rcases hp : matchSegPrefix l with _ | ⟨pre', r1⟩
  · rw [hp] at h; cases h
  · rw [hp] at h
    dsimp only at h
    have hr1 := matchSegPrefix_length l pre' r1 hp
    have hdw : (r1.dropWhile isPySpace).length ≤ r1.length :=
      (List.dropWhile_sublist isPySpace).length_le
    rcases hd : r1.dropWhile isPySpace with _ | ⟨q', r3⟩
    · rw [hd] at h; cases h
    · rw [hd] at h
      dsimp only at h
      by_cases hq : q' = '"' ∨ q' = squote
      · rw [if_pos hq] at h
        rcases hs : scanStrBody q' r3 with _ | ⟨b, rest⟩
        · rw [hs] at h; cases h
        · rw [hs] at h
          have hrec := scanStrBody_length q' r3 b rest hs
          cases h
          have hlen := congrArg List.length hd
          simp only [List.length_cons] at hlen
          omega
      · rw [if_neg hq] at h
        cases h

/-- The replacement text: the matched call is rewritten in place to
`{pre}Segment({q}http://{host}:8000/segment?type={quoted}{pv}&filetype={q}`
(the leading delimiter, when any, is re-emitted by the scanner). -/
def segCallRepl (hostname : String) (pv : Option Int) (pre : String) (q : Char)
    (body : List Char) : List Char :=
  (pre ++ "Segment(").data ++ [q] ++
    ("http://" ++ hostname ++ ":8000/segment?type=" ++ quotePlus (String.mk body) ++
      pvString pv ++ "&filetype=").data ++ [q]

/-- The scan from any position after the start (the `\W` alternative of
the boundary, which consumes and re-emits the delimiter). -/
def segCallSubGo (hostname : String) (pv : Option Int) (l : List Char) : List Char :=
  match l with
  | [] => []
  | c :: rest =>
      if isPyWordChar c then c :: segCallSubGo hostname pv rest
      else
        match hm : matchSegCall rest with
        | some (pre, q, body, r) =>
            c :: (segCallRepl hostname pv pre q body ++ segCallSubGo hostname pv r)
        | none => c :: segCallSubGo hostname pv rest
termination_by l.length
decreasing_by
  all_goals simp only [List.length_cons]
  · omega
  · have := matchSegCall_length _ _ _ _ _ hm
    omega
  · omega

/-- `_rm_re_pattern.sub(_rm_repl, s)` of `levelserver.py`: the `^`
alternative allows a delimiter-free match at position zero. -/
def segCallSub (hostname : String) (pv : Option Int) (l : List Char) : List Char :=
  match matchSegCall l with
  | some (pre, q, body, r) => segCallRepl hostname pv pre q body ++ segCallSubGo hostname pv r
  | none => segCallSubGo hostname pv l

/-- `levelserver.py`'s `read_room`: decode (strictly), rewrite every
segment-reference call's string literal in place. -/
def read_room_lv (env : Env) (room_type : Option String) (pv : Option Int)
    (hostname : String) : Except PyErr (Option String) :=
  match room_type with
  | none => .ok none
  | some t =>
      match read_asset env (pjoin "rooms" (t ++ ".lua")) with
      | none => .ok none
      | some content =>
          match env.decode content with
          | none => .error .unicodeDecodeError
          | some text => .ok (some (String.mk (segCallSub hostname pv text.data)))

/-- `levelserver.py`'s obstacle readability test: no lazy-loading flag. -/
def obstacleCanLoadLv (env : Env) : String → Bool := fun t =>
  pathIsReadable env (getAssetPath env (pjoin "obstacles" (t ++ ".lua")))

/-- The post-resolution pipeline of `levelserver.py`'s `read_segment`. -/
def processSegmentContentLv (env : Env) (st : ReaderState) (content : String)
    (pv : Option Int) (hostname : String) : Except PyErr (Option String) × ReaderState :=
  match env.parse content with
  | none => (.ok (some content), st)
  | some root =>
      let st' := update_templates env st
      (.ok (some (tostring (segRewriteTree st'.templates (obstacleCanLoadLv env) pv hostname
        root))), st')

/-- `levelserver.py`'s `read_segment`: no `None` guard — when the type
is absent or neither file resolves, `segment_content` is `None` and
`ETree.fromstring(None)` raises `TypeError` (not the caught
`ParseError`). -/
def read_segment_lv (env : Env) (st : ReaderState) (segment_type : Option String)
    (pv : Option Int) (hostname : String) : Except PyErr (Option String) × ReaderState :=
  match (match segment_type with
         | none => (.ok none : Except PyErr (Option String))
         | some t => resolveSegmentContent env t) with
  | .error e => (.error e, st)
  | .ok none => (.error .typeError, st)
  | .ok (some c) => processSegmentContentLv env st c pv hostname

/-- `levelserver.py`'s `do_GET` (its `read_level`, `read_segment_mesh`
and `read_obstacle` are identical to the `asset_server.py` ones). -/
def do_GET_lv (env : Env) (st : ReaderState) (req : Request) :
    Except PyErr (HTTPResponse × ReaderState) :=
  let pv := getPv req
  if req.path = "/level" then
    match read_level env (getQuery req "type") pv req.hostname with
    | .error e => .error e
    | .ok c => .ok (conditionalResponse c "text/xml", st)
  else if req.path = "/room" then
    match read_room_lv env (getQuery req "type") pv req.hostname with
    | .error e => .error e
    | .ok c => .ok (conditionalResponse c "text/plain", st)
  else if req.path = "/segment" then
    if getQuery req "filetype" = some ".xml" then
      match read_segment_lv env st (getQuery req "type") pv req.hostname with
      | (.error e, _) => .error e
      | (.ok c, st') => .ok (conditionalResponse c "text/xml", st')
    else if getQuery req "filetype" = some ".mesh" then
      match read_segment_mesh env (getQuery req "type") with
      | .error e => .error e
      | .ok c => .ok (conditionalResponse c "application/octet-stream", st)
    else .ok (notFoundResponse, st)
  else if req.path = "/obstacle" then
    match read_obstacle env (getQuery req "type") with
    | .error e => .error e
    | .ok c => .ok (conditionalResponse c "text/plain", st)
  else .ok (notFoundResponse, st)

/-! ## Handler totality (for C1) -/

theorem conditionalResponse_ok_or_404 (c : Option String) (ct : String) :
    (conditionalResponse c ct).status = 200 ∨ conditionalResponse c ct = notFoundResponse := by
  cases c
  · exact Or.inr rfl
  · exact Or.inl rfl

theorem read_level_no_raise (env : Env) (lt : Option String) (pv : Option Int)
    (hostname : String)
    (hrooms : ∀ c root, env.parse c = some root →
      ∀ a ∈ (iterTag "room" root).map XmlElem.attrib, dictLookup a "type" ≠ none) :
    ∃ c, read_level env lt pv hostname = .ok c := by
  have hbody : ∀ t : String, ∃ c : Option String,
      (match read_asset env (pjoin "levels" (t ++ ".xml")) with
        | none => (Except.ok none : Except PyErr (Option String))
        | some content =>
          match env.parse content with
          | none => Except.ok none
          | some root =>
            match levelRewriteTree hostname pv root with
            | none => Except.error PyErr.typeError
            | some root' => Except.ok (some (tostring root'))) = Except.ok c := by
    intro t
    rcases read_asset env (pjoin "levels" (t ++ ".xml")) with _ | content
    · exact ⟨none, rfl⟩
    · dsimp only
      rcases hp : env.parse content with _ | root
      · exact ⟨none, rfl⟩
      · dsimp only
        have hsome : (levelRewriteTree hostname pv root).isSome := by
          apply mapAttrsByTagO_isSome
          intro a ha
          have := hrooms content root hp a ha
          rcases ht : dictLookup a "type" with _ | t₀
          · exact absurd ht this
          · simp [roomAttrRewrite, ht]
        rcases hrw : levelRewriteTree hostname pv root with _ | root'
        · rw [hrw] at hsome
          cases hsome
        · exact ⟨some (tostring root'), rfl⟩
  unfold read_level
  rcases lt with _ | t₀
  · dsimp only
    rcases env.default_level with _ | t
    · exact ⟨none, rfl⟩
    · exact hbody t
  · dsimp only
    exact hbody t₀

theorem resolveSegmentContent_no_error (env : Env) (t : String)
    (hgz : ∀ s e, env.gunzip s ≠ .error e) :
    ∃ oc, resolveSegmentContent env t = .ok oc := by
  unfold resolveSegmentContent
  rcases read_asset env (pjoin "segments" (t ++ ".xml")) with _ | c
  · dsimp only
    rcases read_asset env (pjoin "segments" (t ++ ".xml.gz")) with _ | g
    · exact ⟨none, rfl⟩
    · dsimp only
      rcases hd : env.gunzip g with e | d
      · exact absurd hd (hgz g e)
      · exact ⟨some d, rfl⟩
  · exact ⟨some c, rfl⟩

theorem processSegmentContent_no_raise (env : Env) (st : ReaderState) (c : String)
    (pv : Option Int) (hostname : String) :
    ∃ o st', processSegmentContent env st c pv hostname = (.ok o, st') := by
  unfold processSegmentContent
  rcases env.parse c with _ | root
  · exact ⟨some c, st, rfl⟩
  · exact ⟨_, _, rfl⟩

theorem read_segment_no_raise (env : Env) (st : ReaderState) (t : Option String)
    (pv : Option Int) (hostname : String)
    (hgz : ∀ s e, env.gunzip s ≠ .error e) :
    ∃ c st', read_segment env st t pv hostname = (.ok c, st') := by
  rcases t with _ | t
  · exact ⟨none, st, rfl⟩
  · unfold read_segment
    dsimp only
    obtain ⟨oc, hres⟩ := resolveSegmentContent_no_error env t hgz
    rw [hres]
    rcases oc with _ | c
    · exact ⟨none, st, rfl⟩
    · exact processSegmentContent_no_raise env st c pv hostname

theorem read_room_no_raise (env : Env) (rt : Option String) (pv : Option Int)
    (hostname : String)
    (hdec : ∀ t c, read_asset env (pjoin "rooms" (t ++ ".lua")) = some c →
      env.decode c ≠ none) :
    ∃ c, read_room env rt pv hostname = .ok c := by
  rcases rt with _ | t
  · exact ⟨none, rfl⟩
  · unfold read_room
    dsimp only
    rcases hr : read_asset env (pjoin "rooms" (t ++ ".lua")) with _ | content
    · exact ⟨none, rfl⟩
    · dsimp only
      rcases hd : env.decode content with _ | text
      · exact absurd hd (hdec t content hr)
      · exact ⟨_, rfl⟩

theorem read_room_lv_no_raise (env : Env) (rt : Option String) (pv : Option Int)
    (hostname : String)
    (hdec : ∀ t c, read_asset env (pjoin "rooms" (t ++ ".lua")) = some c →
      env.decode c ≠ none) :
    ∃ c, read_room_lv env rt pv hostname = .ok c := by
  rcases rt with _ | t
  · exact ⟨none, rfl⟩
  · unfold read_room_lv
    dsimp only
    rcases hr : read_asset env (pjoin "rooms" (t ++ ".lua")) with _ | content
    · exact ⟨none, rfl⟩
    · dsimp only
      rcases hd : env.decode content with _ | text
      · exact absurd hd (hdec t content hr)
      · exact ⟨_, rfl⟩

theorem processSegmentContentLv_no_raise (env : Env) (st : ReaderState) (c : String)
    (pv : Option Int) (hostname : String) :
    ∃ o st', processSegmentContentLv env st c pv hostname = (.ok o, st') := by
  unfold processSegmentContentLv
  rcases env.parse c with _ | root
  · exact ⟨some c, st, rfl⟩
  · exact ⟨_, _, rfl⟩

theorem read_segment_lv_resolved (env : Env) (st : ReaderState) (t : String)
    (pv : Option Int) (hostname : String) (c : String)
    (hres : resolveSegmentContent env t = .ok (some c)) :
    read_segment_lv env st (some t) pv hostname =
      processSegmentContentLv env st c pv hostname := by
  unfold read_segment_lv
  dsimp only
  rw [hres]

/-- C1 (amended): every GET request receives either a 200 response or
the fixed 404 page, in both source variants, provided the handlers'
uncaught-exception paths are excluded: every parsed level document's
`room` elements all carry a `type` attribute; gzip decompression
succeeds on every consulted `.gz` asset; every consulted room asset's
bytes decode as UTF-8; `/obstacle` and `/segment?filetype=.mesh`
requests carry a `type` query parameter; and — for the `levelserver.py`
variant, whose `read_segment` raises `TypeError` via
`ETree.fromstring(None)` — every `/segment?filetype=.xml` request
carries a `type` whose segment content resolves.  (The counterexample
shows the unamended claim fails on several of these paths.) -/
theorem handler_responses_200_or_404 (env : Env) (st : ReaderState) (req : Request)
    (hrooms : ∀ c root, env.parse c = some root →
      ∀ a ∈ (iterTag "room" root).map XmlElem.attrib, dictLookup a "type" ≠ none)
    (hgz : ∀ s e, env.gunzip s ≠ .error e)
    (hdec : ∀ t c, read_asset env (pjoin "rooms" (t ++ ".lua")) = some c →
      env.decode c ≠ none)
    (hobst : req.path = "/obstacle" → getQuery req "type" ≠ none)
    (hmesh : req.path = "/segment" → getQuery req "filetype" = some ".mesh" →
      getQuery req "type" ≠ none)
    (hsegxlv : req.path = "/segment" → getQuery req "filetype" = some ".xml" →
      ∃ t c, getQuery req "type" = some t ∧ resolveSegmentContent env t = .ok (some c)) :
    (∃ resp st', do_GET env st req = .ok (resp, st') ∧
      (resp.status = 200 ∨ resp = notFoundResponse)) ∧
    (∃ resp st', do_GET_lv env st req = .ok (resp, st') ∧
      (resp.status = 200 ∨ resp = notFoundResponse)) := by
  constructor
  · unfold do_GET
    by_cases hlevel : req.path = "/level"
    · rw [if_pos hlevel]
      obtain ⟨c, hc⟩ := read_level_no_raise env (getQuery req "type") (getPv req)
        req.hostname hrooms
      rw [hc]
      exact ⟨_, st, rfl, conditionalResponse_ok_or_404 c "text/xml"⟩
    · rw [if_neg hlevel]
      by_cases hroom : req.path = "/room"
      · rw [if_pos hroom]
        obtain ⟨c, hc⟩ := read_room_no_raise env (getQuery req "type") (getPv req)
          req.hostname hdec
        rw [hc]
        exact ⟨_, st, rfl, conditionalResponse_ok_or_404 c "text/plain"⟩
      · rw [if_neg hroom]
        by_cases hseg : req.path = "/segment"
        · rw [if_pos hseg]
          by_cases hxml : getQuery req "filetype" = some ".xml"
          · rw [if_pos hxml]
            obtain ⟨c, st', hc⟩ := read_segment_no_raise env st (getQuery req "type")
              (getPv req) req.hostname hgz
            rw [hc]
            exact ⟨_, st', rfl, conditionalResponse_ok_or_404 c "text/xml"⟩
          · rw [if_neg hxml]
            by_cases hmsh : getQuery req "filetype" = some ".mesh"
            · rw [if_pos hmsh]
              rcases hq : getQuery req "type" with _ | t
              · exact absurd hq (hmesh hseg hmsh)
              · rw [show read_segment_mesh env (some t) =
                    .ok (read_asset env (pjoin "segments" (t ++ ".mesh"))) from rfl]
                exact ⟨_, st, rfl, conditionalResponse_ok_or_404 _ "application/octet-stream"⟩
            · rw [if_neg hmsh]
              exact ⟨notFoundResponse, st, rfl, Or.inr rfl⟩
        · rw [if_neg hseg]
          by_cases hob : req.path = "/obstacle"
          · rw [if_pos hob]
            rcases hq : getQuery req "type" with _ | t
            · exact absurd hq (hobst hob)
            · rw [show read_obstacle env (some t) =
                  .ok (read_asset env (pjoin "obstacles" (t ++ ".lua"))) from rfl]
              exact ⟨_, st, rfl, conditionalResponse_ok_or_404 _ "text/plain"⟩
          · rw [if_neg hob]
            exact ⟨notFoundResponse, st, rfl, Or.inr rfl⟩
  · unfold do_GET_lv
    by_cases hlevel : req.path = "/level"
    · rw [if_pos hlevel]
      obtain ⟨c, hc⟩ := read_level_no_raise env (getQuery req "type") (getPv req)
        req.hostname hrooms
      rw [hc]
      exact ⟨_, st, rfl, conditionalResponse_ok_or_404 c "text/xml"⟩
    · rw [if_neg hlevel]
      by_cases hroom : req.path = "/room"
      · rw [if_pos hroom]
        obtain ⟨c, hc⟩ := read_room_lv_no_raise env (getQuery req "type") (getPv req)
          req.hostname hdec
        rw [hc]
        exact ⟨_, st, rfl, conditionalResponse_ok_or_404 c "text/plain"⟩
      · rw [if_neg hroom]
        by_cases hseg : req.path = "/segment"
        · rw [if_pos hseg]
          by_cases hxml : getQuery req "filetype" = some ".xml"
          · rw [if_pos hxml]
            obtain ⟨t, c, ht, hres⟩ := hsegxlv hseg hxml
            rw [ht, read_segment_lv_resolved env st t (getPv req) req.hostname c hres]
            obtain ⟨o, st', ho⟩ := processSegmentContentLv_no_raise env st c (getPv req)
              req.hostname
            rw [ho]
            exact ⟨_, st', rfl, conditionalResponse_ok_or_404 o "text/xml"⟩
          · rw [if_neg hxml]
            by_cases hmsh : getQuery req "filetype" = some ".mesh"
            · rw [if_pos hmsh]
              rcases hq : getQuery req "type" with _ | t
              · exact absurd hq (hmesh hseg hmsh)
              · rw [show read_segment_mesh env (some t) =
                    .ok (read_asset env (pjoin "segments" (t ++ ".mesh"))) from rfl]
                exact ⟨_, st, rfl, conditionalResponse_ok_or_404 _ "application/octet-stream"⟩
            · rw [if_neg hmsh]
              exact ⟨notFoundResponse, st, rfl, Or.inr rfl⟩
        · rw [if_neg hseg]
          by_cases hob : req.path = "/obstacle"
          · rw [if_pos hob]
            rcases hq : getQuery req "type" with _ | t
            · exact absurd hq (hobst hob)
            · rw [show read_obstacle env (some t) =
                  .ok (read_asset env (pjoin "obstacles" (t ++ ".lua"))) from rfl]
              exact ⟨_, st, rfl, conditionalResponse_ok_or_404 _ "text/plain"⟩
          · rw [if_neg hob]
            exact ⟨notFoundResponse, st, rfl, Or.inr rfl⟩

theorem handler_responses_200_or_404_witness :
    (∃ resp st', do_GET envLvl ⟨none, 0⟩
        { path := "/level", queries := [("type", ["forest"])], hostname := "localhost" } =
        .ok (resp, st') ∧
      (resp.status = 200 ∨ resp = notFoundResponse)) ∧
    (∃ resp st', do_GET_lv envLvl ⟨none, 0⟩
        { path := "/level", queries := [("type", ["forest"])], hostname := "localhost" } =
        .ok (resp, st') ∧
      (resp.status = 200 ∨ resp = notFoundResponse)) := by
  apply handler_responses_200_or_404
  · intro c root hc
    by_cases h : c = "LVL"
    · subst h
      rw [show envLvl.parse "LVL" = some lvlRoot from rfl] at hc
      cases hc
      decide
    · rw [show envLvl.parse c = if c = "LVL" then some lvlRoot else none from rfl,
        if_neg h] at hc
      cases hc
  · exact fun s e h => Except.noConfusion h
  · exact fun t c _ h => Option.noConfusion h
  · exact fun h => absurd h (by decide)
  · exact fun h => absurd h (by decide)
  · exact fun h => absurd h (by decide)

def envRoomBad : Env where
  files := [("assets/rooms/den.lua.mp3", ⟨"BYTES", 1⟩)]
  parse := fun _ => none
  gunzip := fun s => .ok s
  decode := fun s => if s = "BYTES" then none else some s
  asset_dir := "assets"
  default_level := none
  do_obstacle_loading := false

theorem handler_responses_200_or_404_counterexample :
    do_GET envEmpty ⟨none, 0⟩
        { path := "/obstacle", queries := [], hostname := "localhost" } =
      .error .typeError ∧
    do_GET envRoomBad ⟨none, 0⟩
        { path := "/room", queries := [("type", ["den"])], hostname := "localhost" } =
      .error .unicodeDecodeError ∧
    do_GET_lv envEmpty ⟨none, 0⟩
        { path := "/segment", queries := [("filetype", [".xml"])], hostname := "localhost" } =
      .error .typeError ∧
    do_GET_lv envEmpty ⟨none, 0⟩
        { path := "/segment", queries := [("filetype", [".xml"]), ("type", ["cave"])],
          hostname := "localhost" } =
      .error .typeError :=
  ⟨rfl, rfl, rfl, rfl⟩

end ShAssetServer
